import Mathlib

/-!
Verification of the myatpwint recommendation core against its specification.

Shallow embedding of:
- `src/python-service/services/similarity_engine.py`
  (`cosine_similarity`, `diversify_results`, `calculate_user_book_affinity`)
- `src/python-service/utils/cache.py`
  (`InMemoryCache`, `CacheManager._generate_cache_key`)
- `src/python-service/services/embedding_service.py` (`generate_embedding`)
- `src/python-service/services/recommendation_engine.py`
  (`get_similar_books`, `get_personalized_recommendations`,
   `get_trending_books`, `_build_user_profile`)

Numeric values carried by the Python code (floats) are modelled as exact
rationals; real-valued results (cosine similarity, affinity) live in `ℝ`.
Python dictionaries are modelled as insertion-ordered association lists,
and Python's stable `sort`/`sorted` as stable insertion sorts.
External collaborators (database, sentence-transformer model, hash
functions, unicode normalization) are oracle parameters.
-/

/-! ### Generic helpers: Python dict / string operations -/

/-- Python `d[k] = v` on a dict modelled as an insertion-ordered assoc list:
an existing key keeps its position, a new key is appended at the end. -/
def dictSet {V : Type} (d : List (String × V)) (k : String) (v : V) :
    List (String × V) :=
  match d with
  | [] => [(k, v)]
  | (k', v') :: rest =>
    if k' = k then (k, v) :: rest else (k', v') :: dictSet rest k v

/-- Python `del d[k]` (for a dict with unique keys). -/
def dictDelete {V : Type} (d : List (String × V)) (k : String) :
    List (String × V) :=
  d.filter (fun p => p.1 ≠ k)

/-- `leadMatch a b` : the char list `a` is an initial segment of `b`. -/
def leadMatch : List Char → List Char → Bool
  | [], _ => true
  | _ :: _, [] => false
  | a :: as, b :: bs => a = b && leadMatch as bs

/-- `subMatch a b` : `a` occurs contiguously inside `b`. -/
def subMatch (a : List Char) : List Char → Bool
  | [] => leadMatch a []
  | b :: bs => leadMatch a (b :: bs) || subMatch a bs

/-- Python's substring test `a in b`. -/
def pySubstr (a b : String) : Bool := subMatch a.data b.data

/-- The six ASCII characters Python's `str.strip()` removes
(unicode whitespace is out of the modelled character range). -/
def pyIsSpace (c : Char) : Bool :=
  c = ' ' || c = '\t' || c = '\n' || c = '\r' || c = '\x0b' || c = '\x0c'

/-- Python `text.strip()`. -/
def pyStrip (s : String) : String :=
  String.mk (((s.data.dropWhile pyIsSpace).reverse.dropWhile pyIsSpace).reverse)

/-- Python `s.lower()` (ASCII case folding, kept executable). -/
def pyLower (s : String) : String := String.mk (s.data.map Char.toLower)

/-! ### Vector comparator: `SimilarityEngine.cosine_similarity`
(similarity_engine.py lines 27-71). -/

/-- Dot product of two rational vectors (`np.dot` up to float rounding). -/
def dotQ (a b : List ℚ) : ℚ := (List.zipWith (· * ·) a b).sum

/-- `similarity = max(0.0, min(1.0, similarity))` (line 63). -/
noncomputable def clamp01 (x : ℝ) : ℝ := max 0 (min 1 x)

/-- `SimilarityEngine.cosine_similarity`.  Empty input or a dimension
mismatch short-circuits to `0.0`; `1 - scipy cosine` is
`dot a b / (‖a‖ ‖b‖)`, which is NaN (mapped to `0.0` by the code's
`isnan` guard) exactly when one of the norms vanishes; otherwise the
value is clamped into `[0, 1]`.  The surrounding `try/except` returning
`0.0` makes the function total. -/
noncomputable def cosine_similarity (a b : List ℚ) : ℝ :=
  if a.length = 0 ∨ b.length = 0 then 0
  else if a.length ≠ b.length then 0
  else if dotQ a a = 0 ∨ dotQ b b = 0 then 0
  else clamp01 ((dotQ a b : ℝ) /
    (Real.sqrt (dotQ a a : ℝ) * Real.sqrt (dotQ b b : ℝ)))

/-! ### Candidate records -/

/-- A candidate book dictionary as the similarity / recommendation engines
see it.  `none` models an absent key.  The score type `α` is a parameter so
that the diversifier can be analysed over any linearly ordered score type
(the code compares float scores with `<`). -/
structure Item (α : Type) where
  bookId : String
  category : Option String
  author : Option String
  embedding : Option (List ℚ)
  score : Option α
  reason : Option String
deriving DecidableEq

/-- `x.get("similarity_score", 0)`. -/
def scoreD {α : Type} [Zero α] (x : Item α) : α := x.score.getD 0

/-- `candidate.get("category", "uncategorized")` — the grouping key used by
`diversify_results` (line 336). -/
def groupKey {α : Type} (x : Item α) : String := x.category.getD "uncategorized"

/-! ### Diversifier: `SimilarityEngine.diversify_results`
(similarity_engine.py lines 312-383). -/

/-- One step of the `category_groups` construction (lines 334-339):
append `x` to its category's bucket, creating the bucket at the end of the
dict on first occurrence. -/
def addToGroups {α : Type} (x : Item α) :
    List (String × List (Item α)) → List (String × List (Item α))
  | [] => [(groupKey x, [x])]
  | (c, l) :: rest =>
    if c = groupKey x then (c, l ++ [x]) :: rest
    else (c, l) :: addToGroups x rest

/-- `category_groups` built from the candidate list. -/
def groupsOf {α : Type} (cands : List (Item α)) :
    List (String × List (Item α)) :=
  cands.foldl (fun gs x => addToGroups x gs) []

/-- Python `max(items, key=...)` over a nonempty list `x :: xs`:
keep the current best, replace it only on a strictly greater key, so the
first maximal element wins. -/
def pyMaxFold {α : Type} [LinearOrder α] [Zero α] (x : Item α)
    (xs : List (Item α)) : Item α :=
  xs.foldl (fun b y => if scoreD b < scoreD y then y else b) x

/-- Number of entries of `l` whose `"category"` key is present and equals
`c` — the quantity computed at lines 362-365
(`item.get("category") == category`). -/
def countCat {α : Type} (l : List (Item α)) (c : String) : ℕ :=
  l.countP (fun x => x.category = some c)

/-- Number of entries of `l` falling in bucket `c` of the grouping
(`candidate.get("category", "uncategorized")`). -/
def countBucket {α : Type} (l : List (Item α)) (c : String) : ℕ :=
  l.countP (fun x => groupKey x = c)

/-- One pass of the inner `for category, items in category_groups.items()`
loop (lines 349-367), threading the growing `diversified` list, the
remaining slot counter and the number of items added this round.
An empty bucket or an exhausted slot counter is skipped (`continue`);
otherwise the highest-scoring item is appended to `diversified`, removed
from its bucket (`list.remove` drops the first equal element), and the
bucket is emptied as soon as `diversified` holds `max_per_category` items
whose explicit `"category"` equals the bucket key. -/
def doRound {α : Type} [LinearOrder α] [Zero α] [DecidableEq α] (k : ℕ) :
    List (String × List (Item α)) → List (Item α) → ℕ →
    List (String × List (Item α)) × List (Item α) × ℕ × ℕ
  | [], div, slots => ([], div, slots, 0)
  | (c, []) :: rest, div, slots =>
    let r := doRound k rest div slots
    ((c, []) :: r.1, r.2)
  | (c, x :: xs) :: rest, div, slots =>
    if slots = 0 then
      let r := doRound k rest div slots
      ((c, x :: xs) :: r.1, r.2)
    else
      let best := pyMaxFold x xs
      let items2 := (x :: xs).erase best
      let div2 := div ++ [best]
      let items3 := if k ≤ countCat div2 c then [] else items2
      let r := doRound k rest div2 (slots - 1)
      ((c, items3) :: r.1, r.2.1, r.2.2.1, r.2.2.2 + 1)

/-- `any(category_groups.values())`. -/
def anyNonempty {α : Type} (gs : List (String × List (Item α))) : Bool :=
  gs.any (fun g => !g.2.isEmpty)

/-- The outer `while remaining_slots > 0 and any(category_groups.values())`
loop (lines 346-371).  Each executed round removes at least one item from
the buckets, so `fuel = len(candidates)` rounds always reach the loop's own
exit condition; the `added_in_round == 0` break is kept for fidelity. -/
def diversifyLoop {α : Type} [LinearOrder α] [Zero α] [DecidableEq α]
    (k : ℕ) : ℕ → List (String × List (Item α)) → List (Item α) → ℕ →
    List (Item α)
  | 0, _, div, _ => div
  | fuel + 1, gs, div, slots =>
    if 0 < slots ∧ anyNonempty gs then
      let r := doRound k gs div slots
      if r.2.2.2 = 0 then r.2.1 else diversifyLoop k fuel r.1 r.2.1 r.2.2.1
    else div

/-- Stable descending insertion by score: `x` goes in front of the first
element with a strictly smaller score.  Extensionally equal to Python's
stable `list.sort(key=..., reverse=True)`. -/
def insertScoreDesc {α : Type} [LinearOrder α] [Zero α] (x : Item α) :
    List (Item α) → List (Item α)
  | [] => [x]
  | y :: ys =>
    if scoreD y < scoreD x then x :: y :: ys else y :: insertScoreDesc x ys

/-- `l.sort(key=lambda x: x.get("similarity_score", 0), reverse=True)`:
elements are inserted left to right, each after all already placed items
of greater-or-equal score, reproducing the stable tie order of Python's
sort. -/
def sortScoreDesc {α : Type} [LinearOrder α] [Zero α]
    (l : List (Item α)) : List (Item α) :=
  l.foldl (fun acc x => insertScoreDesc x acc) []

/-- `SimilarityEngine.diversify_results`.  The `diversity_factor` argument
is accepted and ignored, exactly as in the source (it is never read in the
body).  `max_per_category` is `k`. -/
def diversify {α : Type} [LinearOrder α] [Zero α] [DecidableEq α]
    (_df : ℚ) (cands : List (Item α)) (k : ℕ) : List (Item α) :=
  if cands = [] then cands
  else sortScoreDesc (diversifyLoop k cands.length (groupsOf cands) []
    cands.length)

/-! ### Composite scorer: `SimilarityEngine.calculate_user_book_affinity`
(similarity_engine.py lines 385-451). -/

/-- A user preference profile dictionary.  The outer `Option` on
`preference_embedding` models key presence; the inner one models the
value `None` that `_build_user_profile` stores when no interaction
qualified for the text pool. -/
structure Profile where
  preference_embedding : Option (Option (List ℚ))
  favorite_categories : Option (List String)
  favorite_authors : Option (List String)
  interaction_count : Option ℕ
deriving DecidableEq

/-- The `for fav_category in ...` loop of lines 418-423: an exact
(case-insensitive) match returns `1.0` immediately, a substring match in
either direction raises the accumulator to `0.7`.  `bc` is the already
lowercased book category. -/
def catAffinityGo (bc : String) (acc : ℚ) : List String → ℚ
  | [] => acc
  | f :: fs =>
    if pyLower f = bc then 1
    else if pySubstr (pyLower f) bc || pySubstr bc (pyLower f) then
      catAffinityGo bc (max acc (7/10)) fs
    else catAffinityGo bc acc fs

/-- `category_match` computed from the favourite list and the lowercased
book category. -/
def catAffinity (favs : List String) (bc : String) : ℚ :=
  catAffinityGo bc 0 favs

/-- The author loop of lines 433-438 (partial match is worth `0.8`). -/
def authAffinityGo (ba : String) (acc : ℚ) : List String → ℚ
  | [] => acc
  | f :: fs =>
    if pyLower f = ba then 1
    else if pySubstr (pyLower f) ba || pySubstr ba (pyLower f) then
      authAffinityGo ba (max acc (4/5)) fs
    else authAffinityGo ba acc fs

/-- `author_match`. -/
def authAffinity (favs : List String) (ba : String) : ℚ :=
  authAffinityGo ba 0 favs

/-- `SimilarityEngine.calculate_user_book_affinity`.  Each component is
evaluated only when both dictionaries carry the corresponding key; a
`preference_embedding` key holding `None` still enters the content branch,
where `cosine_similarity(None, ...)` hits that function's exception
handler and yields `0.0` while the weight `0.5` is still accumulated. -/
noncomputable def calculate_user_book_affinity (p : Profile)
    (b : Item ℝ) : ℝ :=
  let c1 : ℝ × ℝ :=
    match p.preference_embedding, b.embedding with
    | some pe, some be =>
      ((match pe with
        | none => 0
        | some v => cosine_similarity v be) * (1/2), 1/2)
    | _, _ => (0, 0)
  let c2 : ℝ × ℝ :=
    match p.favorite_categories, b.category with
    | some favs, some bc =>
      (((catAffinity favs (pyLower bc) : ℚ) : ℝ) * (3/10), 3/10)
    | _, _ => (0, 0)
  let c3 : ℝ × ℝ :=
    match p.favorite_authors, b.author with
    | some favs, some ba =>
      (((authAffinity favs (pyLower ba) : ℚ) : ℝ) * (1/5), 1/5)
    | _, _ => (0, 0)
  let tw := c1.2 + c2.2 + c3.2
  if 0 < tw then (c1.1 + c2.1 + c3.1) / tw else 0

/-! ### Result cache: `InMemoryCache` (cache.py lines 20-88).
Wall-clock instants (`datetime.now()`) are threaded explicitly as
rational timestamps in seconds. -/

/-- One stored cache entry (value, `expires_at`, `created_at`). -/
structure CacheEntry (V : Type) where
  value : V
  expires_at : ℚ
  created_at : ℚ
deriving DecidableEq

/-- The `InMemoryCache` object state: the entry dict, the capacity and the
access-time dict. -/
structure CacheState (V : Type) where
  cache : List (String × CacheEntry V)
  max_size : ℕ
  access_times : List (String × ℚ)
deriving DecidableEq

/-- `InMemoryCache.delete` (lines 60-66): only a present key is removed,
and then from both dicts. -/
def cacheDelete {V : Type} (st : CacheState V) (k : String) : CacheState V :=
  if (st.cache.lookup k).isSome then
    { st with cache := dictDelete st.cache k,
              access_times := dictDelete st.access_times k }
  else st

/-- `InMemoryCache.get` at instant `now` (lines 30-40): a live entry
refreshes its access time and is returned, an expired one is deleted and
reported as a miss. -/
def cacheGet {V : Type} (st : CacheState V) (k : String) (now : ℚ) :
    Option V × CacheState V :=
  match st.cache.lookup k with
  | some e =>
    if now < e.expires_at then
      (some e.value, { st with access_times := dictSet st.access_times k now })
    else (none, cacheDelete st k)
  | none => (none, st)

/-- Stable ascending insertion by timestamp, matching the stable
`sorted(self.access_times.items(), key=lambda x: x[1])` of line 84. -/
def insertByTime (x : String × ℚ) :
    List (String × ℚ) → List (String × ℚ)
  | [] => [x]
  | y :: ys => if x.2 < y.2 then x :: y :: ys else y :: insertByTime x ys

/-- `sorted(access_times.items(), key=lambda x: x[1])`: left-to-right
insertion keeps Python's stable order on equal timestamps. -/
def sortByTime (l : List (String × ℚ)) : List (String × ℚ) :=
  l.foldl (fun acc x => insertByTime x acc) []

/-- `InMemoryCache._evict_oldest` (lines 78-88): delete the
oldest-accessed `max(1, n // 10)` keys; a cache with an empty access dict
is left untouched. -/
def evictOldest {V : Type} (st : CacheState V) : CacheState V :=
  if st.access_times = [] then st
  else
    let sorted := sortByTime st.access_times
    let toRemove := (sorted.take (max 1 (sorted.length / 10))).map Prod.fst
    toRemove.foldl cacheDelete st

/-- `InMemoryCache.set` at instant `now` (lines 42-58): evict first when
the store is at or above capacity, then insert with
`expires_at = now + ttl`. -/
def cacheSet {V : Type} (st : CacheState V) (k : String) (v : V)
    (ttl : ℚ) (now : ℚ) : CacheState V :=
  let st1 := if st.max_size ≤ st.cache.length then evictOldest st else st
  { st1 with
    cache := dictSet st1.cache k ⟨v, now + ttl, now⟩,
    access_times := dictSet st1.access_times k now }

/-- `InMemoryCache.clear` (lines 68-72). -/
def cacheClear {V : Type} (st : CacheState V) : CacheState V :=
  { st with cache := [], access_times := [] }

/-- `InMemoryCache.exists` (lines 74-76): delegates to `get`, including
its lazy expiry deletion. -/
def cacheExists {V : Type} (st : CacheState V) (k : String) (now : ℚ) :
    Bool × CacheState V :=
  let r := cacheGet st k now
  (r.1.isSome, r.2)

/-- A client-visible operation on an `InMemoryCache`. -/
inductive CacheOp (V : Type) where
  | get (k : String) (t : ℚ)
  | set (k : String) (v : V) (ttl t : ℚ)
  | del (k : String)
  | clr
  | exist (k : String) (t : ℚ)
deriving DecidableEq

/-- State transition of one operation. -/
def stepOp {V : Type} (st : CacheState V) : CacheOp V → CacheState V
  | .get k t => (cacheGet st k t).2
  | .set k v ttl t => cacheSet st k v ttl t
  | .del k => cacheDelete st k
  | .clr => cacheClear st
  | .exist k t => (cacheExists st k t).2

/-- Run a sequence of operations. -/
def runOps {V : Type} (st : CacheState V) (ops : List (CacheOp V)) :
    CacheState V :=
  ops.foldl stepOp st

/-- A freshly constructed `InMemoryCache(max_size)`. -/
def emptyCache (V : Type) (m : ℕ) : CacheState V :=
  ⟨[], m, []⟩

/-! ### `CacheManager._generate_cache_key` (cache.py lines 222-236). -/

/-- Lexicographic strict comparison of char lists — Python's `str`
comparison by code points (kept executable, unlike the iterator-based
library order). -/
def charListLt : List Char → List Char → Bool
  | [], [] => false
  | [], _ :: _ => true
  | _ :: _, [] => false
  | a :: as, b :: bs => a < b || (a = b && charListLt as bs)

/-- Python `a < b` on strings. -/
def strLt (a b : String) : Bool := charListLt a.data b.data

/-- Python's tuple comparison `(k1, v1) <= (k2, v2)` on string pairs, as
used (strictly, via its asymmetric part) by `sorted(params.items())`. -/
def pairLE (p q : String × String) : Prop :=
  strLt p.1 q.1 = true ∨
    (p.1 = q.1 ∧ (p.2 = q.2 ∨ strLt p.2 q.2 = true))

instance : DecidableRel pairLE := fun p q => by
  unfold pairLE
  infer_instance

/-- `sorted(params.items())`. -/
def sortPairs (ps : List (String × String)) : List (String × String) :=
  List.insertionSort pairLE ps

/-- `param_string = "&".join(f"k=v" for sorted pairs)`. -/
def paramString (ps : List (String × String)) : String :=
  String.intercalate "&" ((sortPairs ps).map (fun p => p.1 ++ "=" ++ p.2))

/-- `CacheManager._generate_cache_key`.  `md5hex` is the external
`hashlib.md5(...).hexdigest()`, passed as an oracle. -/
def generate_cache_key (md5hex : String → String) (base : String)
    (ps : List (String × String)) : String :=
  if ps = [] then base
  else
    let s := paramString ps
    if 100 < s.length then base ++ ":" ++ md5hex s
    else base ++ ":" ++ s

/-! ### `EmbeddingService.generate_embedding`
(embedding_service.py lines 91-148). -/

/-- `' '.join(cleaned.split())`: split on whitespace runs, re-join with
single blanks. -/
def joinSplit (s : String) : String :=
  String.intercalate " "
    (((s.data.splitOnP (fun c => pyIsSpace c)).map String.mk).filter
      (fun t => t ≠ ""))

/-- The embedding-service state.  `nfc` (unicode NFC normalization),
`md5hex` and `encode` (the sentence-transformer model) are external
oracles; `cache` is the in-process embedding dict. -/
structure EmbeddingService where
  ready : Bool
  dim : ℕ
  modelName : String
  nfc : String → String
  md5hex : String → String
  encode : String → List ℚ
  cache : List (String × List ℚ)

/-- `EmbeddingService._prepare_text` (lines 232-255): strip, NFC
normalize, collapse whitespace. -/
def prepareText (svc : EmbeddingService) (text : String) : String :=
  if text = "" then ""
  else joinSplit (svc.nfc (pyStrip text))

/-- `EmbeddingService.generate_embedding` with `model_version=None`.
The result triple is the returned vector, the updated service state and a
flag recording whether the underlying model was invoked
(`self._cached_encode`).  A not-ready model raises (`Except.error`);
empty or whitespace-only text short-circuits to
`np.zeros(self.embedding_dimension)` before any model call. -/
def generate_embedding (svc : EmbeddingService) (text : String)
    (useCache : Bool) : Except String (List ℚ × EmbeddingService × Bool) :=
  if svc.ready = false then .error "Embedding model not initialized"
  else if text = "" ∨ pyStrip text = "" then
    .ok (List.replicate svc.dim 0, svc, false)
  else
    let cleaned := prepareText svc text
    let key := svc.md5hex (cleaned ++ "_" ++ svc.modelName)
    match svc.cache.lookup key with
    | some cached =>
      if useCache then .ok (cached, svc, false)
      else
        let emb := svc.encode cleaned
        .ok (emb, svc, true)
    | none =>
      let emb := svc.encode cleaned
      let svc' :=
        if useCache then { svc with cache := dictSet svc.cache key emb }
        else svc
      .ok (emb, svc', true)

/-! ### Recommendation orchestrator
(recommendation_engine.py).  DB access, text processing and the preference
embedding model are oracles; the cache manager visible to the engine is a
plain key → value map frozen at one instant (the engine compares and
writes whole result lists under string keys). -/

/-- The `books(...)` join record attached to an interaction row. -/
structure BookRef where
  name : Option String
  author : Option String
  category : Option String
  tags : List String
  description : Option String
deriving DecidableEq

/-- One user interaction as `_get_user_interactions` returns it.  The
difference `(now - interaction_time).days` is pre-computed by the ambient
wall clock as `daysOld`. -/
structure Interaction where
  book : Option BookRef
  interaction_type : String
  weight : ℚ
  daysOld : ℕ
deriving DecidableEq

/-- `categories[category] = categories.get(category, 0) + weight` on an
insertion-ordered tally dict. -/
def bumpTally (t : List (String × ℚ)) (k : String) (w : ℚ) :
    List (String × ℚ) :=
  match t with
  | [] => [(k, w)]
  | (k', v) :: rest =>
    if k' = k then (k', v + w) :: rest else (k', v) :: bumpTally rest k w

/-- Stable descending insertion by tally weight, matching
`sorted(items, key=lambda x: x[1], reverse=True)`. -/
def insertTallyDesc (x : String × ℚ) :
    List (String × ℚ) → List (String × ℚ)
  | [] => [x]
  | y :: ys => if y.2 < x.2 then x :: y :: ys else y :: insertTallyDesc x ys

/-- `sorted(tally.items(), key=lambda x: x[1], reverse=True)`:
left-to-right insertion keeps Python's stable order on equal weights. -/
def sortTallyDesc (l : List (String × ℚ)) : List (String × ℚ) :=
  l.foldl (fun acc x => insertTallyDesc x acc) []

/-- The per-interaction accumulation step of `_build_user_profile`
(lines 492-519): time-decay weight `max(0.1, 1 - days_old*decay/365)`,
category and author tallies, and — only when the final weight exceeds
`0.5` — the book text repeated `int(final_weight)` times. -/
def profileStep (processText : BookRef → String) (decay : ℚ)
    (acc : List (String × ℚ) × List (String × ℚ) × List String)
    (i : Interaction) :
    List (String × ℚ) × List (String × ℚ) × List String :=
  match i.book with
  | none => acc
  | some bk =>
    let timeWeight := max (1/10) (1 - ((i.daysOld : ℚ) * decay) / 365)
    let finalWeight := i.weight * timeWeight
    let cats :=
      match bk.category with
      | some c => if c ≠ "" then bumpTally acc.1 c finalWeight else acc.1
      | none => acc.1
    let auths :=
      match bk.author with
      | some a => if a ≠ "" then bumpTally acc.2.1 a finalWeight
                  else acc.2.1
      | none => acc.2.1
    let texts :=
      if 1/2 < finalWeight then
        acc.2.2 ++ List.replicate finalWeight.floor.toNat (processText bk)
      else acc.2.2
    (cats, auths, texts)

/-- `RecommendationEngine._build_user_profile` (lines 477-542).  Note that
the returned dict always carries the `preference_embedding` key: its value
is `None` when no interaction contributed text, otherwise whatever the
embedding service returned. -/
def buildUserProfile (processText : BookRef → String)
    (prefEmb : List String → Option (List ℚ))
    (inter : List Interaction) (decay : ℚ) : Profile :=
  let acc := inter.foldl (profileStep processText decay) ([], [], [])
  let pe : Option (List ℚ) := if acc.2.2 = [] then none else prefEmb acc.2.2
  { preference_embedding := some pe,
    favorite_categories :=
      some (((sortTallyDesc acc.1).take 5).map Prod.fst),
    favorite_authors :=
      some (((sortTallyDesc acc.2.1).take 3).map Prod.fst),
    interaction_count := some inter.length }

/-- The oracle bundle behind a `RecommendationEngine`: Supabase lookups,
the embedding service and the reason-string generators (the latter are
oracles because Python set iteration order leaks into
`_generate_similarity_reason`). -/
structure Engine where
  supabaseOk : Bool
  getInteractions : String → List Interaction
  getPurchased : String → List String
  getBookData : String → Option (Item ℝ)
  getCandidates : Option String → List String → List String → List (Item ℝ)
  getOrGenEmbedding : Item ℝ → Option (List ℚ)
  prefEmbed : List String → Option (List ℚ)
  bookText : BookRef → String
  trendingRows : ℕ → ℕ → ℕ → List (Item ℝ × ℚ × ℕ)
  simReason : Item ℝ → Item ℝ → String
  persReason : Profile → Item ℝ → String

/-- The cache contents visible to the engine at one instant. -/
def CacheMap : Type := String → Option (List (Item ℝ))

/-- A cache write (`CacheManager.set` through `_set_cache`). -/
def cwrite (st : CacheMap) (k : String) (v : List (Item ℝ)) : CacheMap :=
  fun q => if q = k then some v else st q

/-- `f"personalized_{user_id}_{limit}_{exclude_purchased}"` (line 183);
a Python bool renders as `True` / `False`. -/
def persKey (u : String) (limit : ℕ) (excl : Bool) : String :=
  "personalized_" ++ u ++ "_" ++ toString limit ++ "_" ++
    (if excl then "True" else "False")

/-- `f"trending_{limit}_{time_window_days}_{min_interactions}"`
(line 266). -/
def trendKey (limit window minI : ℕ) : String :=
  "trending_" ++ toString limit ++ "_" ++ toString window ++ "_" ++
    toString minI

/-- `f"similar_{book_id}_{limit}_{min_similarity}"` (line 97) — note that
`exclude_categories` does not occur in it. -/
def simKey (b : String) (limit : ℕ) (minSim : ℚ) : String :=
  "similar_" ++ b ++ "_" ++ toString limit ++ "_" ++ toString minSim

/-- `RecommendationEngine.get_trending_books` (lines 245-333): the hit
test is Python truthiness (`if cached_result:`), so a cached empty list
counts as a miss; a cached nonempty list is returned unchanged; without Supabase the result is empty
and nothing is cached; otherwise the windowed aggregate rows (an oracle,
row = (book, trend_score, purchase_count)) are scored with
`min(1.0, trend_score/100.0)`, annotated, cached and returned. -/
noncomputable def get_trending_books (e : Engine) (limit window minI : ℕ)
    (st : CacheMap) : List (Item ℝ) × CacheMap :=
  match st (trendKey limit window minI) with
  | some (r0 :: rs) => (r0 :: rs, st)
  | _ =>
    if e.supabaseOk = false then ([], st)
    else
      let books := (e.trendingRows limit window minI).map (fun row =>
        { row.1 with
          score := some (min 1 ((row.2.1 : ℝ) / 100)),
          reason := some ("Trending with " ++ toString row.2.2 ++
            " recent purchases") })
      (books, cwrite st (trendKey limit window minI) books)

/-- `RecommendationEngine.get_personalized_recommendations`
(lines 160-243).  A cache hit (truthy, i.e. nonempty, cached value)
short-circuits.  On a miss with an empty
interaction history the call delegates to `get_trending_books(limit)`
(cold start) and performs no write under the personalized key; otherwise
the profile is built, candidates are scored with
`calculate_user_book_affinity`, kept above `0.2`, sorted, diversified
(`max_per_category` left at its default `3`) and cached. -/
noncomputable def get_personalized_recommendations (e : Engine)
    (user : String) (limit : ℕ) (exclP : Bool) (decay : ℚ)
    (st : CacheMap) : List (Item ℝ) × CacheMap :=
  match st (persKey user limit exclP) with
  | some (r0 :: rs) => (r0 :: rs, st)
  | _ =>
    if e.getInteractions user = [] then get_trending_books e limit 30 5 st
    else
      let profile := buildUserProfile e.bookText e.prefEmbed
        (e.getInteractions user) decay
      let exclIds := if exclP then e.getPurchased user else []
      let cands := e.getCandidates none exclIds []
      let recs := cands.filterMap (fun c =>
        match e.getOrGenEmbedding c with
        | none => none
        | some emb =>
          let aff := calculate_user_book_affinity profile
            { c with embedding := some emb }
          if (1/5 : ℝ) < aff then
            some { c with
                    score := some aff
                    reason := some (e.persReason profile c) }
          else none)
      let divers :=
        (diversify (2/5) ((sortScoreDesc recs).take (limit * 2)) 3).take
          limit
      (divers, cwrite st (persKey user limit exclP) divers)

/-- `RecommendationEngine.get_similar_books` (lines 74-158).  The cache
key ignores `exclude_categories`; the hit test is Python truthiness
(`if cached_result:` at line 99), so a cached *nonempty* list is returned
for any exclusion argument while a cached empty list is recomputed.  On a miss the target book and its embedding are
fetched, candidates (excluding the target id and the given categories) are
scored by cosine similarity, thresholded at `min_similarity`, sorted,
diversified and written back under the same key. -/
noncomputable def get_similar_books (e : Engine) (bid : String)
    (limit : ℕ) (minSim : ℚ) (exclCats : List String) (st : CacheMap) :
    List (Item ℝ) × CacheMap :=
  match st (simKey bid limit minSim) with
  | some (r0 :: rs) => (r0 :: rs, st)
  | _ =>
    match e.getBookData bid with
    | none => ([], st)
    | some target =>
      match e.getOrGenEmbedding target with
      | none => ([], st)
      | some temb =>
        let cands := e.getCandidates (some bid) [] exclCats
        let sims := cands.filterMap (fun c =>
          match e.getOrGenEmbedding c with
          | none => none
          | some cemb =>
            let s := cosine_similarity temb cemb
            if (minSim : ℝ) ≤ s then
              some { c with
                      score := some s
                      reason := some (e.simReason target c) }
            else none)
        let divers :=
          (diversify (3/10) ((sortScoreDesc sims).take (limit * 2)) 3).take
            limit
        (divers, cwrite st (simKey bid limit minSim) divers)

/-- An engine whose every collaborator is trivial; used to instantiate
concrete scenarios. -/
def trivEngine : Engine where
  supabaseOk := false
  getInteractions := fun _ => []
  getPurchased := fun _ => []
  getBookData := fun _ => none
  getCandidates := fun _ _ _ => []
  getOrGenEmbedding := fun _ => none
  prefEmbed := fun _ => none
  bookText := fun _ => ""
  trendingRows := fun _ _ _ => []
  simReason := fun _ _ => ""
  persReason := fun _ _ => ""

/-! ### Invariants used by the verification -/

/-- The well-formedness invariant of an `InMemoryCache` state: the entry
dict and the access-time dict hold exactly the same keys in the same
order, the store is within capacity, and the capacity is positive. -/
def CacheInv {V : Type} (st : CacheState V) : Prop :=
  st.cache.map Prod.fst = st.access_times.map Prod.fst ∧
  st.cache.length ≤ st.max_size ∧ 1 ≤ st.max_size

/-- Every item sits in the bucket named by its grouping key. -/
def KeysOK {α : Type} (gs : List (String × List (Item α))) : Prop :=
  ∀ p ∈ gs, ∀ x ∈ p.2, groupKey x = p.1

/-- Bucket keys are pairwise distinct (Python dict keys). -/
def UniqKeys {α : Type} (gs : List (String × List (Item α))) : Prop :=
  (gs.map Prod.fst).Nodup

/-- The diversifier loop invariant for a fixed category `c` and cap `k`:
the output so far holds at most `k` items carrying category `c`, and
strictly fewer than `k` while the bucket keyed `c` still has items. -/
def GoodAt {α : Type} (k : ℕ) (c : String) (div : List (Item α))
    (gs : List (String × List (Item α))) : Prop :=
  countCat div c ≤ k ∧
  ∀ p ∈ gs, p.1 = c → p.2 ≠ [] → countCat div c < k

/-! ## Theorems -/

/-! ### Vector comparator facts (claims C3, C6) -/

theorem dotQ_comm (a b : List ℚ) : dotQ a b = dotQ b a := by
  unfold dotQ
  induction a generalizing b with
  | nil => cases b <;> simp
  | cons x xs ih =>
    cases b with
    | nil => simp
    | cons y ys => simp [List.zipWith, mul_comm, ih ys]

theorem dotQ_self_nonneg (a : List ℚ) : 0 ≤ dotQ a a := by
  induction a with
  | nil => simp [dotQ]
  | cons x xs ih =>
    have h : dotQ (x :: xs) (x :: xs) = x * x + dotQ xs xs := rfl
    rw [h]
    nlinarith [mul_self_nonneg x]

theorem cosine_symm (a b : List ℚ) :
    cosine_similarity a b = cosine_similarity b a := by
  unfold cosine_similarity
  by_cases h1 : a.length = 0 ∨ b.length = 0
  · rw [if_pos h1, if_pos h1.symm]
  · rw [if_neg h1, if_neg (fun h : b.length = 0 ∨ a.length = 0 => h1 h.symm)]
    by_cases h2 : a.length = b.length
    · rw [if_neg (not_not_intro h2), if_neg (not_not_intro h2.symm)]
      by_cases h3 : dotQ a a = 0 ∨ dotQ b b = 0
      · rw [if_pos h3, if_pos h3.symm]
      · rw [if_neg h3,
          if_neg (fun h : dotQ b b = 0 ∨ dotQ a a = 0 => h3 h.symm)]
        rw [dotQ_comm a b, mul_comm]
    · rw [if_pos h2, if_pos (fun h : b.length = a.length => h2 h.symm)]

theorem cosine_self (a : List ℚ) (h : dotQ a a ≠ 0) :
    cosine_similarity a a = 1 := by
  have ha : ¬(a.length = 0 ∨ a.length = 0) := by
    intro hor
    rcases hor with h0 | h0 <;>
    · rw [List.length_eq_zero.mp h0] at h
      exact h rfl
  unfold cosine_similarity
  rw [if_neg ha, if_neg (not_not_intro rfl),
    if_neg (by intro hor; rcases hor with h0 | h0 <;> exact h h0)]
  have hnn : (0 : ℝ) ≤ (dotQ a a : ℝ) := by exact_mod_cast dotQ_self_nonneg a
  rw [Real.mul_self_sqrt hnn, div_self (by exact_mod_cast h)]
  unfold clamp01
  norm_num

/-- Claim C3 (amended): `cosine_similarity` is symmetric for all inputs,
and equals `1.0` on the diagonal whenever the vector has a nonzero norm
(the original universal self-similarity claim fails on the zero vector,
see the counterexample). -/
theorem C3_cosine_self_unit_and_symm (a b : List ℚ) :
    cosine_similarity a b = cosine_similarity b a ∧
    (dotQ a a ≠ 0 → cosine_similarity a a = 1) :=
  ⟨cosine_symm a b, cosine_self a⟩

/-- Claim C3, counterexample to the claim as stated: the zero vector is
equal-length with itself, yet its self-similarity is `0.0`, not `1.0`
(the scipy NaN guard maps the undefined `0/0` case to `0.0`). -/
theorem C3_counterexample :
    cosine_similarity [0] [0] = 0 ∧ (0 : ℝ) ≠ 1 := by
  constructor
  · unfold cosine_similarity
    rw [if_neg (by norm_num), if_neg (not_not_intro rfl),
      if_pos (Or.inl (by norm_num [dotQ]))]
  · norm_num

/-- Witness instantiating `C3_cosine_self_unit_and_symm` on `[1]`. -/
theorem C3_witness :
    dotQ [1] [1] ≠ 0 ∧ cosine_similarity [(1 : ℚ)] [1] = 1 :=
  ⟨by norm_num [dotQ], (C3_cosine_self_unit_and_symm [1] [1]).2
    (by norm_num [dotQ])⟩

/-- Claim C6: `cosine_similarity` is total (the Python `try/except`
returns `0.0` on any internal failure), returns exactly `0.0` on an empty
vector or a dimension mismatch, and its result always lies in `[0, 1]`
because of the final clamp. -/
theorem C6_cosine_total_bounded (a b : List ℚ) :
    ((a = [] ∨ b = [] ∨ a.length ≠ b.length) → cosine_similarity a b = 0) ∧
    0 ≤ cosine_similarity a b ∧ cosine_similarity a b ≤ 1 := by
  constructor
  · intro h
    unfold cosine_similarity
    rcases h with h | h | h
    · rw [if_pos (Or.inl (by simp [h]))]
    · rw [if_pos (Or.inr (by simp [h]))]
    · by_cases h1 : a.length = 0 ∨ b.length = 0
      · rw [if_pos h1]
      · rw [if_neg h1, if_pos h]
  · unfold cosine_similarity
    split
    · norm_num
    · split
      · norm_num
      · split
        · norm_num
        · unfold clamp01
          exact ⟨le_max_left 0 _, max_le (by norm_num) (min_le_left 1 _)⟩

/-- Witness instantiating `C6_cosine_total_bounded` on a length
mismatch. -/
theorem C6_witness :
    (([] : List ℚ) = [] ∨ [(1 : ℚ)] = [] ∨
      ([] : List ℚ).length ≠ [(1 : ℚ)].length) ∧
    cosine_similarity [] [1] = 0 :=
  ⟨Or.inl rfl, (C6_cosine_total_bounded [] [1]).1 (Or.inl rfl)⟩

/-! ### In-memory cache facts (claims C4, C8) -/

theorem lookup_dictSet {V : Type} (d : List (String × V)) (k : String)
    (v : V) : (dictSet d k v).lookup k = some v := by
  induction d with
  | nil => simp [dictSet]
  | cons p rest ih =>
    obtain ⟨k', v'⟩ := p
    by_cases h : k' = k
    · simp [dictSet, h]
    · have hbe : (k == k') = false := beq_eq_false_iff_ne.mpr (Ne.symm h)
      simp [dictSet, h, List.lookup, hbe, ih]

theorem lookup_dictDelete {V : Type} (d : List (String × V)) (k : String) :
    (dictDelete d k).lookup k = none := by
  induction d with
  | nil => simp [dictDelete]
  | cons p rest ih =>
    obtain ⟨k', v'⟩ := p
    by_cases h : k' = k
    · simpa [dictDelete, List.filter_cons, h] using ih
    · have hbe : (k == k') = false := beq_eq_false_iff_ne.mpr (Ne.symm h)
      simpa [dictDelete, List.filter_cons, h, List.lookup, hbe] using ih

/-- Reading a key whose stored entry is known reduces `cacheGet` to the
freshness test. -/
theorem cacheGet_of_lookup {V : Type} (st : CacheState V) (k : String)
    (now : ℚ) (e : CacheEntry V) (h : st.cache.lookup k = some e) :
    cacheGet st k now =
      if now < e.expires_at then
        (some e.value,
          { st with access_times := dictSet st.access_times k now })
      else (none, cacheDelete st k) := by
  unfold cacheGet
  rw [h]

/-- Claim C4: after `set(k, v, ttl)` at instant `t0` (with positive ttl),
`get(k)` at `t0` itself returns `v`, `get(k)` at any instant before
`t0 + ttl` returns `v`, and `get(k)` at any instant from `t0 + ttl` on is
a miss that also removes the expired entry from the store. -/
theorem C4_cache_ttl {V : Type} (st : CacheState V) (k : String) (v : V)
    (ttl t0 t : ℚ) (httl : 0 < ttl) :
    ((cacheGet (cacheSet st k v ttl t0) k t0).1 = some v) ∧
    (t < t0 + ttl → (cacheGet (cacheSet st k v ttl t0) k t).1 = some v) ∧
    (t0 + ttl ≤ t →
      (cacheGet (cacheSet st k v ttl t0) k t).1 = none ∧
      ((cacheGet (cacheSet st k v ttl t0) k t).2.cache.lookup k) = none) := by
  have hl : (cacheSet st k v ttl t0).cache.lookup k =
      some ⟨v, t0 + ttl, t0⟩ := by
    unfold cacheSet
    exact lookup_dictSet _ _ _
  refine ⟨?_, ?_, ?_⟩
  · rw [cacheGet_of_lookup _ _ _ _ hl]
    rw [if_pos (show t0 < t0 + ttl by linarith)]
  · intro h
    rw [cacheGet_of_lookup _ _ _ _ hl]
    rw [if_pos (show t < t0 + ttl from h)]
  · intro h
    rw [cacheGet_of_lookup _ _ _ _ hl]
    rw [if_neg (show ¬t < t0 + ttl by linarith)]
    refine ⟨rfl, ?_⟩
    show ((cacheDelete (cacheSet st k v ttl t0) k).cache.lookup k) = none
    unfold cacheDelete
    rw [hl]
    simp only [Option.isSome_some, if_true]
    exact lookup_dictDelete _ _

/-- Witness instantiating `C4_cache_ttl` concretely: value readable at the
write instant, gone strictly after the ttl. -/
theorem C4_witness :
    (cacheGet (cacheSet (emptyCache ℕ 10) "a" 5 1 0) "a" 0).1 = some 5 ∧
    (cacheGet (cacheSet (emptyCache ℕ 10) "a" 5 1 0) "a" 2).1 = none :=
  ⟨(C4_cache_ttl (emptyCache ℕ 10) "a" 5 1 0 2 (by norm_num)).1,
   ((C4_cache_ttl (emptyCache ℕ 10) "a" 5 1 0 2 (by norm_num)).2.2
     (by norm_num)).1⟩

/-! ### Cache key generation (claim C7) -/

theorem charListLt_irrefl (a : List Char) : charListLt a a = false := by
  induction a with
  | nil => rfl
  | cons x xs ih => simp [charListLt, lt_irrefl, ih]

theorem charListLt_asymm :
    ∀ a b : List Char, charListLt a b = true → charListLt b a = true →
      False := by
  intro a
  induction a with
  | nil =>
    intro b hab hba
    cases b with
    | nil => simp [charListLt] at hab
    | cons y ys => simp [charListLt] at hba
  | cons x xs ih =>
    intro b hab hba
    cases b with
    | nil => simp [charListLt] at hab
    | cons y ys =>
      simp only [charListLt, Bool.or_eq_true, Bool.and_eq_true,
        decide_eq_true_eq] at hab hba
      rcases hab with h1 | ⟨h1, h1t⟩
      · rcases hba with h2 | ⟨h2, _⟩
        · exact absurd h2 (lt_asymm h1)
        · exact absurd (h2 ▸ h1) (lt_irrefl _)
      · rcases hba with h2 | ⟨_, h2t⟩
        · exact absurd (h1 ▸ h2) (lt_irrefl _)
        · exact ih ys h1t h2t

theorem charListLt_trans :
    ∀ a b c : List Char, charListLt a b = true → charListLt b c = true →
      charListLt a c = true := by
  intro a
  induction a with
  | nil =>
    intro b c hab hbc
    cases b with
    | nil => simp [charListLt] at hab
    | cons y ys =>
      cases c with
      | nil => simp [charListLt] at hbc
      | cons z zs => rfl
  | cons x xs ih =>
    intro b c hab hbc
    cases b with
    | nil => simp [charListLt] at hab
    | cons y ys =>
      cases c with
      | nil => simp [charListLt] at hbc
      | cons z zs =>
        simp only [charListLt, Bool.or_eq_true, Bool.and_eq_true,
          decide_eq_true_eq] at hab hbc ⊢
        rcases hab with h1 | ⟨h1, h1t⟩
        · rcases hbc with h2 | ⟨h2, _⟩
          · exact Or.inl (h1.trans h2)
          · exact Or.inl (h2 ▸ h1)
        · rcases hbc with h2 | ⟨h2, h2t⟩
          · exact Or.inl (h1 ▸ h2)
          · exact Or.inr ⟨h1.trans h2, ih ys zs h1t h2t⟩

theorem charListLt_total :
    ∀ a b : List Char, charListLt a b = true ∨ a = b ∨
      charListLt b a = true := by
  intro a
  induction a with
  | nil =>
    intro b
    cases b with
    | nil => exact Or.inr (Or.inl rfl)
    | cons y ys => exact Or.inl rfl
  | cons x xs ih =>
    intro b
    cases b with
    | nil => exact Or.inr (Or.inr rfl)
    | cons y ys =>
      rcases lt_trichotomy x y with h | h | h
      · exact Or.inl (by simp [charListLt, h])
      · rcases ih ys with ht | ht | ht
        · exact Or.inl (by simp [charListLt, h, ht])
        · exact Or.inr (Or.inl (by rw [h, ht]))
        · exact Or.inr (Or.inr (by simp [charListLt, h.symm, ht]))
      · exact Or.inr (Or.inr (by simp [charListLt, h]))

theorem strLt_asymm (a b : String) (h1 : strLt a b = true)
    (h2 : strLt b a = true) : False :=
  charListLt_asymm a.data b.data h1 h2

theorem strLt_irrefl (a : String) : strLt a a = false :=
  charListLt_irrefl a.data

theorem strLt_trans (a b c : String) (h1 : strLt a b = true)
    (h2 : strLt b c = true) : strLt a c = true :=
  charListLt_trans a.data b.data c.data h1 h2

theorem strLt_total (a b : String) :
    strLt a b = true ∨ a = b ∨ strLt b a = true := by
  rcases charListLt_total a.data b.data with h | h | h
  · exact Or.inl h
  · exact Or.inr (Or.inl (by cases a; cases b; exact congrArg String.mk h))
  · exact Or.inr (Or.inr h)

theorem pairLE_total : ∀ p q : String × String, pairLE p q ∨ pairLE q p := by
  intro p q
  rcases strLt_total p.1 q.1 with h | h | h
  · exact Or.inl (Or.inl h)
  · rcases strLt_total p.2 q.2 with h2 | h2 | h2
    · exact Or.inl (Or.inr ⟨h, Or.inr h2⟩)
    · exact Or.inl (Or.inr ⟨h, Or.inl h2⟩)
    · exact Or.inr (Or.inr ⟨h.symm, Or.inr h2⟩)
  · exact Or.inr (Or.inl h)

theorem pairLE_trans :
    ∀ p q r : String × String, pairLE p q → pairLE q r → pairLE p r := by
  intro p q r hpq hqr
  rcases hpq with h1 | ⟨h1, h1v⟩
  · rcases hqr with h2 | ⟨h2, _⟩
    · exact Or.inl (strLt_trans _ _ _ h1 h2)
    · exact Or.inl (h2 ▸ h1)
  · rcases hqr with h2 | ⟨h2, h2v⟩
    · exact Or.inl (h1 ▸ h2)
    · refine Or.inr ⟨h1.trans h2, ?_⟩
      rcases h1v with hv | hv
      · exact hv ▸ h2v
      · rcases h2v with hw | hw
        · exact Or.inr (hw ▸ hv)
        · exact Or.inr (strLt_trans _ _ _ hv hw)

theorem pairLE_antisymm :
    ∀ p q : String × String, pairLE p q → pairLE q p → p = q := by
  intro p q hpq hqp
  rcases hpq with h1 | ⟨h1, h1v⟩
  · rcases hqp with h2 | ⟨h2, _⟩
    · exact absurd (strLt_asymm _ _ h1 h2) (fun h => h)
    · exact absurd (h2 ▸ h1) (by simp [strLt_irrefl])
  · rcases hqp with h2 | ⟨_, h2v⟩
    · exact absurd (h1 ▸ h2) (by simp [strLt_irrefl])
    · refine Prod.ext h1 ?_
      rcases h1v with hv | hv
      · exact hv
      · rcases h2v with hw | hw
        · exact hw.symm
        · exact absurd (strLt_asymm _ _ hv hw) (fun h => h)

/-- Claim C7: `_generate_cache_key` is order-independent — permuted
parameter lists produce the identical key — and once the canonical encoded
parameter string exceeds 100 characters the key is the base key joined to
the (fixed-length) md5 digest of that string instead of the string
itself. -/
theorem C7_keygen (md5hex : String → String) (base : String)
    (ps qs : List (String × String)) (hperm : ps.Perm qs) :
    generate_cache_key md5hex base ps = generate_cache_key md5hex base qs ∧
    (100 < (paramString ps).length →
      generate_cache_key md5hex base ps =
        base ++ ":" ++ md5hex (paramString ps)) := by
  haveI : IsTotal (String × String) pairLE := ⟨pairLE_total⟩
  haveI : IsTrans (String × String) pairLE := ⟨pairLE_trans⟩
  haveI : IsAntisymm (String × String) pairLE := ⟨pairLE_antisymm⟩
  have hsort : sortPairs ps = sortPairs qs :=
    List.eq_of_perm_of_sorted
      ((List.perm_insertionSort pairLE ps).trans
        (hperm.trans (List.perm_insertionSort pairLE qs).symm))
      (List.sorted_insertionSort pairLE ps)
      (List.sorted_insertionSort pairLE qs)
  have hps : paramString ps = paramString qs := by
    unfold paramString
    rw [hsort]
  constructor
  · unfold generate_cache_key
    by_cases hn : ps = []
    · have hq : qs = [] := List.Perm.eq_nil (hn ▸ hperm).symm
      rw [if_pos hn, if_pos hq]
    · have hq : qs ≠ [] := by
        intro h
        exact hn (List.Perm.eq_nil (h ▸ hperm))
      rw [if_neg hn, if_neg hq, hps]
  · intro hlen
    have hn : ps ≠ [] := by
      intro h
      subst h
      simp [paramString, sortPairs, List.insertionSort,
        String.intercalate] at hlen
    unfold generate_cache_key
    rw [if_neg hn, if_pos hlen]

/-- Witness instantiating `C7_keygen` twice: once on a transposed
two-pair dict (order independence), once on a dict whose encoded string
exceeds 100 characters (hashed form). -/
theorem C7_witness :
    generate_cache_key (fun _ => "h") "k" [("a", "1"), ("b", "2")] =
      generate_cache_key (fun _ => "h") "k" [("b", "2"), ("a", "1")] ∧
    100 < (paramString
      [("a", "xxxxxxxxxxxxxxxxxxxxxxxxxxxxxxxxxxxxxxxxxxxxxxxxxxxxxxxxxxxxxxxxxxxxxxxxxxxxxxxxxxxxxxxxxxxxxxxxxxxxx")]).length ∧
    generate_cache_key (fun _ => "h") "k"
        [("a", "xxxxxxxxxxxxxxxxxxxxxxxxxxxxxxxxxxxxxxxxxxxxxxxxxxxxxxxxxxxxxxxxxxxxxxxxxxxxxxxxxxxxxxxxxxxxxxxxxxxxx")] =
      "k" ++ ":" ++ "h" :=
  ⟨(C7_keygen (fun _ => "h") "k" _ _ (List.Perm.swap ("b", "2") ("a", "1") [])).1,
   by decide,
   (C7_keygen (fun _ => "h") "k"
     [("a", "xxxxxxxxxxxxxxxxxxxxxxxxxxxxxxxxxxxxxxxxxxxxxxxxxxxxxxxxxxxxxxxxxxxxxxxxxxxxxxxxxxxxxxxxxxxxxxxxxxxxx")]
     [("a", "xxxxxxxxxxxxxxxxxxxxxxxxxxxxxxxxxxxxxxxxxxxxxxxxxxxxxxxxxxxxxxxxxxxxxxxxxxxxxxxxxxxxxxxxxxxxxxxxxxxxx")]
     (List.Perm.refl _)).2 (by decide)⟩

/-! ### Embedding service (claim C10) -/

/-- Claim C10: with an initialized model, empty or whitespace-only text
makes `generate_embedding` return the all-zeros vector of the model's
embedding dimension, with the service state untouched and without
invoking the underlying model (the returned flag is `false`). -/
theorem C10_blank_text_zero_vector (svc : EmbeddingService)
    (text : String) (useCache : Bool) (hready : svc.ready = true)
    (hblank : text = "" ∨ pyStrip text = "") :
    generate_embedding svc text useCache =
      .ok (List.replicate svc.dim 0, svc, false) := by
  unfold generate_embedding
  rw [hready]
  rw [if_neg (by simp), if_pos hblank]

/-- Witness instantiating `C10_blank_text_zero_vector` on whitespace-only
input. -/
theorem C10_witness :
    generate_embedding ⟨true, 3, "m", id, id, fun _ => [], []⟩ " \t " true =
      .ok (List.replicate 3 0, ⟨true, 3, "m", id, id, fun _ => [], []⟩,
        false) :=
  C10_blank_text_zero_vector _ _ _ rfl (Or.inr (by decide))

/-! ### User-book affinity (claim C2) -/

/-- Claim C2, counterexample to the claim as stated: the profile built by
`_build_user_profile` from a single fresh `view` interaction (final weight
`0.5`, so nothing qualifies for the text pool) carries
`preference_embedding = None` as a present key.  Scoring it against a book
with an embedding, the matching category `"fiction"` and a non-matching
author yields `0.3 = 0.3 * 1 / (0.5 + 0.3 + 0.2)` — the full weight
normalizes the category term, so the result is not the category-match
value `1`. -/
theorem C2_counterexample :
    calculate_user_book_affinity
        (buildUserProfile (fun _ => "") (fun _ => none)
          [⟨some ⟨some "x", some "alice", some "fiction", [], some ""⟩,
            "view", 1/2, 0⟩] (1/10))
        ⟨"b1", some "fiction", some "bob", some [1], none, none⟩ = 3/10 ∧
    catAffinity ["fiction"] (pyLower "fiction") = 1 ∧
    (3/10 : ℝ) ≠ ((1 : ℚ) : ℝ) := by
  have hw : (1/2 : ℚ) * max (1/10) (1 - ((0:ℕ):ℚ) * (1/10) / 365) = 1/2 := by
    norm_num
  have hprof : buildUserProfile (fun _ => "") (fun _ => none)
      [⟨some ⟨some "x", some "alice", some "fiction", [], some ""⟩,
        "view", 1/2, 0⟩] (1/10) =
      ⟨some none, some ["fiction"], some ["alice"], some 1⟩ := by
    unfold buildUserProfile profileStep
    simp only [List.foldl, hw]
    have hf : ¬("fiction" : String) = "" := by decide
    have ha : ¬("alice" : String) = "" := by decide
    norm_num [bumpTally, sortTallyDesc, insertTallyDesc, hf, ha]
  have hcat : catAffinity ["fiction"] (pyLower "fiction") = 1 := by
    simp [catAffinity, catAffinityGo, pyLower]
  have hauth : authAffinity ["alice"] (pyLower "bob") = 0 := by
    have hs1 : pySubstr "alice" "bob" = false := by decide
    have hs2 : pySubstr "bob" "alice" = false := by decide
    simp [authAffinity, authAffinityGo, pyLower, hs1, hs2]
  refine ⟨?_, hcat, by norm_num⟩
  rw [hprof]
  unfold calculate_user_book_affinity
  simp only [hcat, hauth]
  norm_num

/-- Claim C2 (amended): when the profile genuinely lacks the
`preference_embedding` key (not merely holds `None` there, as
`_build_user_profile` outputs do) and the author component is not
evaluable either, the affinity equals the category-match value itself,
and is positive when the category matches — the `0.3` weight cancels
against the total.  For `_build_user_profile` profiles the key is present
with value `None`, the `0.5` weight still counts, and the score is
`0.3 * match / total` instead (see the counterexample). -/
theorem C2_affinity_category_only (p : Profile) (b : Item ℝ)
    (favs : List String) (bc : String)
    (hpe : p.preference_embedding = none)
    (hau : p.favorite_authors = none ∨ b.author = none)
    (hfc : p.favorite_categories = some favs)
    (hbc : b.category = some bc)
    (hm : 0 < catAffinity favs (pyLower bc)) :
    calculate_user_book_affinity p b =
      ((catAffinity favs (pyLower bc) : ℚ) : ℝ) ∧
    0 < calculate_user_book_affinity p b := by
  have hval : calculate_user_book_affinity p b =
      ((catAffinity favs (pyLower bc) : ℚ) : ℝ) := by
    unfold calculate_user_book_affinity
    rw [hpe, hfc, hbc]
    cases hemb : b.embedding with
    | none =>
      rcases hau with hau | hau
      · rw [hau]
        cases hba : b.author <;>
          · simp only []
            rw [if_pos (by norm_num)]
            simp only [zero_add, add_zero]
            rw [mul_div_assoc, div_self (by norm_num : (3/10 : ℝ) ≠ 0),
              mul_one]
      · rw [hau]
        cases hfa : p.favorite_authors <;>
          · simp only []
            rw [if_pos (by norm_num)]
            simp only [zero_add, add_zero]
            rw [mul_div_assoc, div_self (by norm_num : (3/10 : ℝ) ≠ 0),
              mul_one]
    | some e =>
      rcases hau with hau | hau
      · rw [hau]
        cases hba : b.author <;>
          · simp only []
            rw [if_pos (by norm_num)]
            simp only [zero_add, add_zero]
            rw [mul_div_assoc, div_self (by norm_num : (3/10 : ℝ) ≠ 0),
              mul_one]
      · rw [hau]
        cases hfa : p.favorite_authors <;>
          · simp only []
            rw [if_pos (by norm_num)]
            simp only [zero_add, add_zero]
            rw [mul_div_assoc, div_self (by norm_num : (3/10 : ℝ) ≠ 0),
              mul_one]
  refine ⟨hval, ?_⟩
  rw [hval]
  exact_mod_cast hm

/-- Witness instantiating `C2_affinity_category_only` on a one-component
profile with an exactly matching category. -/
theorem C2_witness :
    0 < catAffinity ["a"] (pyLower "a") ∧
    calculate_user_book_affinity ⟨none, some ["a"], none, none⟩
        ⟨"b1", some "a", none, none, none, none⟩ =
      ((catAffinity ["a"] (pyLower "a") : ℚ) : ℝ) :=
  ⟨by simp [catAffinity, catAffinityGo, pyLower],
   (C2_affinity_category_only ⟨none, some ["a"], none, none⟩
     ⟨"b1", some "a", none, none, none, none⟩ ["a"] "a" rfl (Or.inl rfl)
     rfl rfl (by simp [catAffinity, catAffinityGo, pyLower])).1⟩

/-! ### Orchestrator cache-key facts and strategies (claims C5, C9) -/

theorem trendKey_ne_persKey (l w m : ℕ) (u : String) (l2 : ℕ) (b : Bool) :
    trendKey l w m ≠ persKey u l2 b := by
  intro heq
  have hd : (trendKey l w m).data = (persKey u l2 b).data :=
    congrArg String.data heq
  unfold trendKey persKey at hd
  simp only [String.data_append, List.cons_append] at hd
  injection hd with h1 _
  exact absurd h1 (by decide)

/-- A trending call never writes under any key other than its own
trending key: on a truthy hit or without Supabase the state is unchanged,
otherwise only the trending key is written. -/
theorem get_trending_snd_ne (e : Engine) (limit window minI : ℕ)
    (st : CacheMap) (q : String) (hq : q ≠ trendKey limit window minI) :
    (get_trending_books e limit window minI st).2 q = st q := by
  unfold get_trending_books
  cases htr : st (trendKey limit window minI) with
  | none =>
    by_cases hsb : e.supabaseOk = false
    · rw [if_pos hsb]
    · rw [if_neg hsb]
      simp only [cwrite]
      rw [if_neg hq]
  | some r =>
    cases r with
    | nil =>
      by_cases hsb : e.supabaseOk = false
      · rw [if_pos hsb]
      · rw [if_neg hsb]
        simp only [cwrite]
        rw [if_neg hq]
    | cons a as => rfl

/-- Claim C9 (amended): the cache key of `get_similar_books` depends only
on the book id, the limit and the similarity threshold, and a cached
truthy (nonempty) result is returned unchanged for any two
`exclude_categories` arguments.  A cached *empty* list fails the code's
`if cached_result:` hit test and is recomputed with the current exclusion
list instead (see the counterexample). -/
theorem C9_exclusion_ignored (e : Engine) (bid : String) (limit : ℕ)
    (minSim : ℚ) (ec1 ec2 : List String) (st : CacheMap)
    (r : List (Item ℝ)) (h : st (simKey bid limit minSim) = some r)
    (hne : r ≠ []) :
    get_similar_books e bid limit minSim ec1 st = (r, st) ∧
    get_similar_books e bid limit minSim ec2 st = (r, st) := by
  obtain ⟨a, as, rfl⟩ : ∃ a as, r = a :: as := by
    cases r with
    | nil => exact absurd rfl hne
    | cons a as => exact ⟨a, as, rfl⟩
  constructor <;>
  · unfold get_similar_books
    rw [h]

/-- Witness instantiating `C9_exclusion_ignored` on a cached nonempty
result queried with two different exclusion lists. -/
theorem C9_witness :
    get_similar_books trivEngine "b" 10 (3/10) ["x"]
        (fun q => if q = simKey "b" 10 (3/10) then
          some [⟨"w", none, none, none, none, none⟩] else none) =
      ([⟨"w", none, none, none, none, none⟩],
        fun q => if q = simKey "b" 10 (3/10) then
          some [⟨"w", none, none, none, none, none⟩] else none) ∧
    get_similar_books trivEngine "b" 10 (3/10) []
        (fun q => if q = simKey "b" 10 (3/10) then
          some [⟨"w", none, none, none, none, none⟩] else none) =
      ([⟨"w", none, none, none, none, none⟩],
        fun q => if q = simKey "b" 10 (3/10) then
          some [⟨"w", none, none, none, none, none⟩] else none) :=
  C9_exclusion_ignored trivEngine "b" 10 (3/10) ["x"] []
    (fun q => if q = simKey "b" 10 (3/10) then
      some [⟨"w", none, none, none, none, none⟩] else none)
    [⟨"w", none, none, none, none, none⟩] (if_pos rfl) (by simp)

/-- Claim C9, counterexample to the claim as stated: an *empty* list
cached under the similarity key is falsy for `if cached_result:`
(recommendation_engine.py line 99), so the call recomputes with the
current `exclude_categories` — here returning a nonempty list rather
than the cached one. -/
theorem C9_counterexample :
    (fun q => if q = simKey "b" 10 (3/10) then some ([] : List (Item ℝ))
      else none) (simKey "b" 10 (3/10)) = some [] ∧
    (get_similar_books
        ⟨true, fun _ => [], fun _ => [],
          fun _ => some ⟨"b", none, none, none, none, none⟩,
          fun _ _ _ => [⟨"c", none, none, none, none, none⟩],
          fun _ => some [1], fun _ => none, fun _ => "",
          fun _ _ _ => [], fun _ _ => "", fun _ _ => ""⟩
        "b" 10 (3/10) ["x"]
        (fun q => if q = simKey "b" 10 (3/10) then some [] else none)).1 =
      [⟨"c", none, none, none, some 1, some ""⟩] ∧
    ([(⟨"c", none, none, none, some 1, some ""⟩ : Item ℝ)] :
      List (Item ℝ)) ≠ [] := by
  refine ⟨if_pos rfl, ?_, by simp⟩
  have hcos : cosine_similarity [1] [1] = 1 :=
    cosine_self [1] (by norm_num [dotQ])
  unfold get_similar_books
  rw [show (fun q => if q = simKey "b" 10 (3/10) then
      some ([] : List (Item ℝ)) else none) (simKey "b" 10 (3/10)) =
      some [] from if_pos rfl]
  norm_num [hcos, diversify, diversifyLoop, doRound, groupsOf,
    addToGroups, groupKey, pyMaxFold, countCat, sortScoreDesc,
    insertScoreDesc, anyNonempty, scoreD, List.filterMap_cons,
    List.erase_cons_head]

/-- Claim C5 (amended): on a personalized-cache miss, a user with an
empty interaction history receives exactly `get_trending_books(limit)`
(same items, same order, default window 30 days and threshold 5), and
nothing is written under the personalized key — the fallback writes, if
anything, only under the trending key.  Without the miss hypothesis the
claim fails: a pre-existing entry under the personalized key is returned
as-is (see the counterexample). -/
theorem C5_cold_start_fallback (e : Engine) (user : String) (limit : ℕ)
    (exclP : Bool) (decay : ℚ) (st : CacheMap)
    (hmiss : st (persKey user limit exclP) = none)
    (hempty : e.getInteractions user = []) :
    get_personalized_recommendations e user limit exclP decay st =
      get_trending_books e limit 30 5 st ∧
    (get_personalized_recommendations e user limit exclP decay st).2
      (persKey user limit exclP) = none := by
  have hmain : get_personalized_recommendations e user limit exclP decay st
      = get_trending_books e limit 30 5 st := by
    unfold get_personalized_recommendations
    rw [hmiss]
    simp only [hempty, if_pos]
  refine ⟨hmain, ?_⟩
  rw [hmain]
  rw [get_trending_snd_ne e limit 30 5 st (persKey user limit exclP)
    (fun hk => trendKey_ne_persKey limit 30 5 user limit exclP hk.symm)]
  exact hmiss

/-- Claim C5, counterexample to the claim as stated: with an empty
interaction history but a pre-existing cached entry under the
personalized key, `get_personalized_recommendations` returns that stale
entry, which differs from the trending list (empty here since the store
is unavailable). -/
theorem C5_counterexample :
    trivEngine.getInteractions "u" = [] ∧
    (get_personalized_recommendations trivEngine "u" 10 true (1/10)
        (fun q => if q = persKey "u" 10 true then
          some [⟨"a", none, none, none, none, none⟩] else none)).1 =
      [⟨"a", none, none, none, none, none⟩] ∧
    (get_trending_books trivEngine 10 30 5
        (fun q => if q = persKey "u" 10 true then
          some [⟨"a", none, none, none, none, none⟩] else none)).1 = [] ∧
    ([(⟨"a", none, none, none, none, none⟩ : Item ℝ)] : List (Item ℝ))
      ≠ [] := by
  refine ⟨rfl, ?_, ?_, by simp⟩
  · unfold get_personalized_recommendations
    rw [show (fun q => if q = persKey "u" 10 true then
        some [(⟨"a", none, none, none, none, none⟩ : Item ℝ)] else none)
        (persKey "u" 10 true) =
        some [(⟨"a", none, none, none, none, none⟩ : Item ℝ)]
      from if_pos rfl]
  · unfold get_trending_books
    rw [show (fun q => if q = persKey "u" 10 true then
        some [(⟨"a", none, none, none, none, none⟩ : Item ℝ)] else none)
        (trendKey 10 30 5) = none
      from if_neg (fun hk => trendKey_ne_persKey 10 30 5 "u" 10 true hk)]
    simp [trivEngine]

/-! ### Cache capacity (claim C8) -/

theorem dictSet_length_le {V : Type} (d : List (String × V)) (k : String)
    (v : V) : (dictSet d k v).length ≤ d.length + 1 := by
  induction d with
  | nil => simp [dictSet]
  | cons p rest ih =>
    obtain ⟨k', v'⟩ := p
    by_cases h : k' = k
    · simp [dictSet, h]
    · simp only [dictSet, if_neg h, List.length_cons]
      omega

theorem lookup_isSome_iff {V : Type} (d : List (String × V)) (k : String) :
    (d.lookup k).isSome = true ↔ k ∈ d.map Prod.fst := by
  induction d with
  | nil => simp
  | cons p rest ih =>
    obtain ⟨k', v'⟩ := p
    by_cases h : k' = k
    · subst h
      simp [List.lookup]
    · have hbe : (k == k') = false := beq_eq_false_iff_ne.mpr (Ne.symm h)
      simp [List.lookup, hbe, ih, Ne.symm h]

theorem dictSet_map_fst_of_mem {V : Type} (d : List (String × V))
    (k : String) (v : V) (h : k ∈ d.map Prod.fst) :
    (dictSet d k v).map Prod.fst = d.map Prod.fst := by
  induction d with
  | nil => simp at h
  | cons p rest ih =>
    obtain ⟨k', v'⟩ := p
    by_cases hk : k' = k
    · simp [dictSet, hk]
    · have hm : k ∈ rest.map Prod.fst := by
        simpa [Ne.symm hk] using h
      simp [dictSet, hk, ih hm]

theorem dictSet_map_fst_congr {V W : Type} (d1 : List (String × V))
    (d2 : List (String × W)) (k : String) (v : V) (w : W)
    (h : d1.map Prod.fst = d2.map Prod.fst) :
    (dictSet d1 k v).map Prod.fst = (dictSet d2 k w).map Prod.fst := by
  induction d1 generalizing d2 with
  | nil =>
    have h2 : d2 = [] := by
      cases d2 with
      | nil => rfl
      | cons q r => simp at h
    subst h2
    simp [dictSet]
  | cons p r1 ih =>
    obtain ⟨a, x⟩ := p
    cases d2 with
    | nil => simp at h
    | cons q r2 =>
      obtain ⟨b, y⟩ := q
      simp only [List.map_cons, List.cons.injEq] at h
      obtain ⟨hab, hrest⟩ := h
      subst hab
      by_cases hk : a = k
      · simpa [dictSet, hk] using hrest
      · simpa [dictSet, hk] using ih r2 hrest

theorem dictDelete_map_fst {V : Type} (d : List (String × V))
    (k : String) : (dictDelete d k).map Prod.fst =
      (d.map Prod.fst).filter (fun x => x ≠ k) := by
  induction d with
  | nil => rfl
  | cons p rest ih =>
    obtain ⟨k', v'⟩ := p
    by_cases h : k' = k <;>
      simp only [dictDelete, List.filter_cons, decide_not] at ih ⊢ <;>
      simp [h, ih]

theorem dictDelete_length_lt {V : Type} (d : List (String × V))
    (k : String) (h : (d.lookup k).isSome = true) :
    (dictDelete d k).length < d.length := by
  induction d with
  | nil => simp at h
  | cons p rest ih =>
    obtain ⟨k', v'⟩ := p
    by_cases hk : k' = k
    · subst hk
      simp only [dictDelete, List.filter_cons, decide_not]
      rw [if_neg (by simp)]
      calc (rest.filter (fun p => !decide (p.1 = k'))).length
          ≤ rest.length := List.length_filter_le _ _
        _ < (⟨k', v'⟩ :: rest : List (String × V)).length :=
            Nat.lt_succ_self _
    · have hbe : (k == k') = false := beq_eq_false_iff_ne.mpr (Ne.symm hk)
      have h' : (rest.lookup k).isSome = true := by
        simpa [List.lookup, hbe] using h
      simp only [dictDelete, List.filter_cons, decide_not]
      rw [if_pos (by simp [hk])]
      simpa [dictDelete] using Nat.succ_lt_succ (ih h')

theorem cacheDelete_max_size {V : Type} (st : CacheState V) (k : String) :
    (cacheDelete st k).max_size = st.max_size := by
  unfold cacheDelete
  split <;> rfl

theorem cacheDelete_sync {V : Type} (st : CacheState V) (k : String)
    (h : st.cache.map Prod.fst = st.access_times.map Prod.fst) :
    (cacheDelete st k).cache.map Prod.fst =
      (cacheDelete st k).access_times.map Prod.fst := by
  unfold cacheDelete
  split
  · simp only [dictDelete_map_fst, h]
  · exact h

theorem cacheDelete_length_le {V : Type} (st : CacheState V) (k : String) :
    (cacheDelete st k).cache.length ≤ st.cache.length := by
  unfold cacheDelete
  split
  · simpa [dictDelete] using List.length_filter_le _ st.cache
  · exact le_refl _

theorem cacheDelete_length_lt {V : Type} (st : CacheState V) (k : String)
    (h : (st.cache.lookup k).isSome = true) :
    (cacheDelete st k).cache.length < st.cache.length := by
  unfold cacheDelete
  rw [if_pos h]
  exact dictDelete_length_lt _ _ h

theorem foldl_cacheDelete_max_size {V : Type} (ks : List String)
    (st : CacheState V) :
    (ks.foldl cacheDelete st).max_size = st.max_size := by
  induction ks generalizing st with
  | nil => rfl
  | cons k ks ih => simp [List.foldl, ih, cacheDelete_max_size]

theorem foldl_cacheDelete_sync {V : Type} (ks : List String)
    (st : CacheState V)
    (h : st.cache.map Prod.fst = st.access_times.map Prod.fst) :
    ((ks.foldl cacheDelete st).cache.map Prod.fst) =
      ((ks.foldl cacheDelete st).access_times.map Prod.fst) := by
  induction ks generalizing st with
  | nil => exact h
  | cons k ks ih => exact ih _ (cacheDelete_sync st k h)

theorem foldl_cacheDelete_length_le {V : Type} (ks : List String)
    (st : CacheState V) :
    (ks.foldl cacheDelete st).cache.length ≤ st.cache.length := by
  induction ks generalizing st with
  | nil => exact le_refl _
  | cons k ks ih =>
    exact le_trans (ih (cacheDelete st k)) (cacheDelete_length_le st k)

theorem mem_insertByTime (x y : String × ℚ) (l : List (String × ℚ)) :
    x ∈ insertByTime y l ↔ x = y ∨ x ∈ l := by
  induction l with
  | nil => simp [insertByTime]
  | cons z zs ih =>
    by_cases h : y.2 < z.2
    · simp [insertByTime, h]
    · simp [insertByTime, h, ih]
      tauto

theorem mem_sortByTime_aux :
    ∀ (l acc : List (String × ℚ)) (x : String × ℚ),
      (x ∈ l.foldl (fun acc y => insertByTime y acc) acc) ↔
        x ∈ l ∨ x ∈ acc := by
  intro l
  induction l with
  | nil => intro acc x; simp
  | cons z zs ih =>
    intro acc x
    rw [List.foldl_cons, ih, mem_insertByTime]
    simp [List.mem_cons]
    tauto

theorem mem_sortByTime (x : String × ℚ) (l : List (String × ℚ)) :
    x ∈ sortByTime l ↔ x ∈ l := by
  unfold sortByTime
  rw [mem_sortByTime_aux]
  simp

theorem length_insertByTime (y : String × ℚ) (l : List (String × ℚ)) :
    (insertByTime y l).length = l.length + 1 := by
  induction l with
  | nil => rfl
  | cons z zs ih =>
    by_cases h : y.2 < z.2 <;> simp [insertByTime, h, ih]

theorem length_sortByTime_aux :
    ∀ (l acc : List (String × ℚ)),
      (l.foldl (fun acc y => insertByTime y acc) acc).length =
        l.length + acc.length := by
  intro l
  induction l with
  | nil => intro acc; simp
  | cons z zs ih =>
    intro acc
    rw [List.foldl_cons, ih, length_insertByTime]
    simp only [List.length_cons]
    omega

theorem length_sortByTime (l : List (String × ℚ)) :
    (sortByTime l).length = l.length := by
  unfold sortByTime
  rw [length_sortByTime_aux]
  simp

theorem evictOldest_max_size {V : Type} (st : CacheState V) :
    (evictOldest st).max_size = st.max_size := by
  unfold evictOldest
  split
  · rfl
  · exact foldl_cacheDelete_max_size _ _

theorem evictOldest_sync {V : Type} (st : CacheState V)
    (h : st.cache.map Prod.fst = st.access_times.map Prod.fst) :
    (evictOldest st).cache.map Prod.fst =
      (evictOldest st).access_times.map Prod.fst := by
  unfold evictOldest
  split
  · exact h
  · exact foldl_cacheDelete_sync _ _ h

theorem evictOldest_length_lt {V : Type} (st : CacheState V)
    (hsync : st.cache.map Prod.fst = st.access_times.map Prod.fst)
    (hne : st.cache ≠ []) :
    (evictOldest st).cache.length < st.cache.length := by
  have hane : st.access_times ≠ [] := by
    intro h0
    apply hne
    have := hsync
    rw [h0] at this
    simpa using this
  unfold evictOldest
  rw [if_neg hane]
  have hslen : 0 < (sortByTime st.access_times).length := by
    rw [length_sortByTime]
    exact List.length_pos.mpr hane
  obtain ⟨p, ps, hsp⟩ : ∃ p ps, sortByTime st.access_times = p :: ps := by
    cases hs : sortByTime st.access_times with
    | nil => rw [hs] at hslen; simp at hslen
    | cons p ps => exact ⟨p, ps, rfl⟩
  rw [hsp]
  show (((List.take (max 1 ((p :: ps).length / 10)) (p :: ps)).map
    Prod.fst).foldl cacheDelete st).cache.length < st.cache.length
  obtain ⟨m, hm⟩ : ∃ m, max 1 ((p :: ps).length / 10) = m + 1 :=
    ⟨max 1 ((p :: ps).length / 10) - 1,
      (Nat.succ_pred_eq_of_pos (lt_of_lt_of_le Nat.zero_lt_one
        (le_max_left _ _))).symm⟩
  rw [hm, List.take_succ_cons, List.map_cons, List.foldl_cons]
  have hpmem : p ∈ st.access_times := by
    rw [← mem_sortByTime]
    rw [hsp]
    exact List.mem_cons_self _ _
  have hkmem : p.1 ∈ st.cache.map Prod.fst := by
    rw [hsync]
    exact List.mem_map_of_mem Prod.fst hpmem
  have hlk : (st.cache.lookup p.1).isSome = true :=
    (lookup_isSome_iff _ _).mpr hkmem
  calc ((List.take m ps).map Prod.fst |>.foldl cacheDelete
        (cacheDelete st p.1)).cache.length
      ≤ (cacheDelete st p.1).cache.length :=
        foldl_cacheDelete_length_le _ _
    _ < st.cache.length := cacheDelete_length_lt st p.1 hlk

theorem cacheSet_max_size {V : Type} (st : CacheState V) (k : String)
    (v : V) (ttl now : ℚ) :
    (cacheSet st k v ttl now).max_size = st.max_size := by
  unfold cacheSet
  show (if st.max_size ≤ st.cache.length then evictOldest st
    else st).max_size = st.max_size
  split
  · exact evictOldest_max_size st
  · rfl

theorem cacheSet_sync {V : Type} (st : CacheState V) (k : String) (v : V)
    (ttl now : ℚ)
    (h : st.cache.map Prod.fst = st.access_times.map Prod.fst) :
    (cacheSet st k v ttl now).cache.map Prod.fst =
      (cacheSet st k v ttl now).access_times.map Prod.fst := by
  have h1 : (if st.max_size ≤ st.cache.length then evictOldest st
      else st).cache.map Prod.fst =
      (if st.max_size ≤ st.cache.length then evictOldest st
      else st).access_times.map Prod.fst := by
    split
    · exact evictOldest_sync st h
    · exact h
  unfold cacheSet
  exact dictSet_map_fst_congr _ _ k _ _ h1

theorem cacheSet_length {V : Type} (st : CacheState V) (k : String)
    (v : V) (ttl now : ℚ)
    (hs : st.cache.map Prod.fst = st.access_times.map Prod.fst)
    (hl : st.cache.length ≤ st.max_size) (hm : 1 ≤ st.max_size) :
    (cacheSet st k v ttl now).cache.length ≤ st.max_size := by
  unfold cacheSet
  show (dictSet (if st.max_size ≤ st.cache.length then evictOldest st
    else st).cache k ⟨v, now + ttl, now⟩).length ≤ st.max_size
  by_cases hcap : st.max_size ≤ st.cache.length
  · rw [if_pos hcap]
    have hne : st.cache ≠ [] := by
      intro h0
      rw [h0] at hcap
      simp at hcap
      omega
    have hlt := evictOldest_length_lt st hs hne
    have hds := dictSet_length_le (evictOldest st).cache k
      ⟨v, now + ttl, now⟩
    omega
  · rw [if_neg hcap]
    have hds := dictSet_length_le st.cache k ⟨v, now + ttl, now⟩
    omega

/-- `cacheGet` on an absent key is a pure miss. -/
theorem cacheGet_of_lookup_none {V : Type} (st : CacheState V)
    (k : String) (now : ℚ) (h : st.cache.lookup k = none) :
    cacheGet st k now = (none, st) := by
  unfold cacheGet
  rw [h]

theorem cacheGet_snd_max {V : Type} (st : CacheState V) (k : String)
    (now : ℚ) : (cacheGet st k now).2.max_size = st.max_size := by
  cases hlk : st.cache.lookup k with
  | none => rw [cacheGet_of_lookup_none st k now hlk]
  | some e =>
    rw [cacheGet_of_lookup st k now e hlk]
    split
    · rfl
    · exact cacheDelete_max_size st k

theorem cacheGet_snd_inv {V : Type} (st : CacheState V) (k : String)
    (now : ℚ) (h : CacheInv st) : CacheInv ((cacheGet st k now).2) := by
  obtain ⟨hs, hl, hm⟩ := h
  cases hlk : st.cache.lookup k with
  | none =>
    rw [cacheGet_of_lookup_none st k now hlk]
    exact ⟨hs, hl, hm⟩
  | some e =>
    rw [cacheGet_of_lookup st k now e hlk]
    by_cases ht : now < e.expires_at
    · rw [if_pos ht]
      have hk : k ∈ st.access_times.map Prod.fst := by
        rw [← hs]
        exact (lookup_isSome_iff _ _).mp (by rw [hlk]; rfl)
      refine ⟨?_, hl, hm⟩
      show st.cache.map Prod.fst =
        (dictSet st.access_times k now).map Prod.fst
      rw [dictSet_map_fst_of_mem _ _ _ hk]
      exact hs
    · rw [if_neg ht]
      refine ⟨cacheDelete_sync st k hs, ?_, ?_⟩
      · rw [cacheDelete_max_size]
        exact le_trans (cacheDelete_length_le st k) hl
      · rw [cacheDelete_max_size]
        exact hm

theorem stepOp_max_size {V : Type} (st : CacheState V) (op : CacheOp V) :
    (stepOp st op).max_size = st.max_size := by
  cases op with
  | get k t => exact cacheGet_snd_max st k t
  | set k v ttl t => exact cacheSet_max_size st k v ttl t
  | del k => exact cacheDelete_max_size st k
  | clr => rfl
  | exist k t => exact cacheGet_snd_max st k t

theorem stepOp_inv {V : Type} (st : CacheState V) (op : CacheOp V)
    (h : CacheInv st) : CacheInv (stepOp st op) := by
  obtain ⟨hs, hl, hm⟩ := h
  cases op with
  | get k t => exact cacheGet_snd_inv st k t ⟨hs, hl, hm⟩
  | set k v ttl t =>
    simp only [stepOp]
    refine ⟨cacheSet_sync st k v ttl t hs, ?_, ?_⟩
    · rw [cacheSet_max_size]
      exact cacheSet_length st k v ttl t hs hl hm
    · rw [cacheSet_max_size]
      exact hm
  | del k =>
    simp only [stepOp]
    refine ⟨cacheDelete_sync st k hs, ?_, ?_⟩
    · rw [cacheDelete_max_size]
      exact le_trans (cacheDelete_length_le st k) hl
    · rw [cacheDelete_max_size]
      exact hm
  | clr => exact ⟨rfl, Nat.zero_le _, hm⟩
  | exist k t => exact cacheGet_snd_inv st k t ⟨hs, hl, hm⟩

theorem runOps_inv {V : Type} (st : CacheState V) (ops : List (CacheOp V))
    (h : CacheInv st) : CacheInv (runOps st ops) := by
  induction ops generalizing st with
  | nil => exact h
  | cons op ops ih => exact ih _ (stepOp_inv st op h)

theorem runOps_max_size {V : Type} (st : CacheState V)
    (ops : List (CacheOp V)) : (runOps st ops).max_size = st.max_size := by
  induction ops generalizing st with
  | nil => rfl
  | cons op ops ih => rw [runOps, List.foldl_cons, ← runOps, ih,
      stepOp_max_size]

/-- Claim C8 (amended): starting from a freshly constructed
`InMemoryCache` with positive capacity, no sequence of get / set /
delete / clear / exists operations ever pushes the number of stored
entries above `max_size` — a set at capacity first evicts at least one
entry.  For `max_size = 0` the claim fails (see the counterexample):
eviction on an empty store is a no-op and the subsequent insert
overshoots. -/
theorem C8_size_bound {V : Type} (m : ℕ) (hm : 1 ≤ m)
    (ops : List (CacheOp V)) :
    (runOps (emptyCache V m) ops).cache.length ≤ m := by
  have h0 : CacheInv (emptyCache V m) := ⟨rfl, Nat.zero_le _, hm⟩
  have h1 := runOps_inv (emptyCache V m) ops h0
  have h2 := runOps_max_size (emptyCache V m) ops
  calc (runOps (emptyCache V m) ops).cache.length
      ≤ (runOps (emptyCache V m) ops).max_size := h1.2.1
    _ = m := h2

/-- Claim C8, counterexample to the claim as stated: with `max_size = 0`
a single `set` on the empty cache stores one entry — `_evict_oldest`
returns immediately on an empty access dict, and the insert then exceeds
the capacity. -/
theorem C8_counterexample :
    (runOps (emptyCache ℕ 0) [CacheOp.set "a" 0 1 0]).cache.length = 1 ∧
    (emptyCache ℕ 0).max_size = 0 ∧ (0 : ℕ) < 1 :=
  ⟨rfl, rfl, Nat.zero_lt_one⟩

/-- Witness instantiating `C8_size_bound`: two sets into a capacity-1
cache leave exactly at most one entry. -/
theorem C8_witness :
    1 ≤ 1 ∧
    (runOps (emptyCache ℕ 1)
      [CacheOp.set "a" 0 1 0, CacheOp.set "b" 0 1 2]).cache.length ≤ 1 :=
  ⟨le_refl 1, C8_size_bound 1 (le_refl 1) _⟩

/-! ### Diversifier category cap (claim C1) -/

theorem countCat_insertScoreDesc {α : Type} [LinearOrder α] [Zero α]
    (x : Item α) (l : List (Item α)) (c : String) :
    countCat (insertScoreDesc x l) c = countCat (x :: l) c := by
  induction l with
  | nil => rfl
  | cons y ys ih =>
    by_cases h : scoreD y < scoreD x
    · simp [insertScoreDesc, h]
    · unfold countCat at ih ⊢
      simp only [insertScoreDesc, if_neg h, List.countP_cons, ih]
      omega

theorem countCat_sortScoreDesc_aux {α : Type} [LinearOrder α] [Zero α]
    (c : String) :
    ∀ (l acc : List (Item α)),
      countCat (l.foldl (fun acc x => insertScoreDesc x acc) acc) c =
        countCat l c + countCat acc c := by
  intro l
  induction l with
  | nil => intro acc; simp [countCat]
  | cons x xs ih =>
    intro acc
    rw [List.foldl_cons, ih, countCat_insertScoreDesc]
    unfold countCat
    simp only [List.countP_cons]
    omega

theorem countCat_sortScoreDesc {α : Type} [LinearOrder α] [Zero α]
    (l : List (Item α)) (c : String) :
    countCat (sortScoreDesc l) c = countCat l c := by
  unfold sortScoreDesc
  rw [countCat_sortScoreDesc_aux]
  simp [countCat]

theorem foldl_pick_mem {α : Type} [LinearOrder α] [Zero α]
    (S : List (Item α)) :
    ∀ (l : List (Item α)) (a : Item α), a ∈ S → (∀ y ∈ l, y ∈ S) →
      l.foldl (fun b y => if scoreD b < scoreD y then y else b) a ∈ S := by
  intro l
  induction l with
  | nil => intro a ha _; exact ha
  | cons y ys ih =>
    intro a ha hl
    simp only [List.foldl_cons]
    refine ih _ ?_ (fun z hz => hl z (List.mem_cons_of_mem _ hz))
    by_cases h : scoreD a < scoreD y
    · simpa [h] using hl y (List.mem_cons_self _ _)
    · simpa [h] using ha

theorem pyMaxFold_mem {α : Type} [LinearOrder α] [Zero α] (x : Item α)
    (xs : List (Item α)) : pyMaxFold x xs ∈ x :: xs :=
  foldl_pick_mem (x :: xs) xs x (List.mem_cons_self _ _)
    (fun y hy => List.mem_cons_of_mem _ hy)

theorem category_ne_of_groupKey_ne {α : Type} (x : Item α) (c : String)
    (h : groupKey x ≠ c) : ¬(x.category = some c) := by
  intro hc
  apply h
  unfold groupKey
  rw [hc]
  rfl

theorem doRound_slots_zero {α : Type} [LinearOrder α] [Zero α]
    [DecidableEq α] (k : ℕ) (gs : List (String × List (Item α)))
    (div : List (Item α)) : doRound k gs div 0 = (gs, div, 0, 0) := by
  induction gs with
  | nil => rfl
  | cons p rest ih =>
    obtain ⟨c, items⟩ := p
    cases items with
    | nil => simp [doRound, ih]
    | cons x xs => simp [doRound, ih]

theorem doRound_keys {α : Type} [LinearOrder α] [Zero α] [DecidableEq α]
    (k : ℕ) (gs : List (String × List (Item α))) :
    ∀ (div : List (Item α)) (s : ℕ),
      (doRound k gs div s).1.map Prod.fst = gs.map Prod.fst := by
  induction gs with
  | nil => intro div s; rfl
  | cons p rest ih =>
    intro div s
    obtain ⟨c, items⟩ := p
    cases items with
    | nil => simp [doRound, ih]
    | cons x xs =>
      by_cases h : s = 0
      · simp [doRound, h, ih]
      · simp [doRound, h, ih]

theorem KeysOK_cons {α : Type} (c : String) (items : List (Item α))
    (rest : List (String × List (Item α))) :
    KeysOK ((c, items) :: rest) ↔
      (∀ x ∈ items, groupKey x = c) ∧ KeysOK rest := by
  unfold KeysOK
  rw [List.forall_mem_cons]

theorem GoodAt_cons {α : Type} (k : ℕ) (c c' : String)
    (div : List (Item α)) (items : List (Item α))
    (rest : List (String × List (Item α))) :
    GoodAt k c div ((c', items) :: rest) ↔
      countCat div c ≤ k ∧
      (c' = c → items ≠ [] → countCat div c < k) ∧
      (∀ p ∈ rest, p.1 = c → p.2 ≠ [] → countCat div c < k) := by
  unfold GoodAt
  rw [List.forall_mem_cons]

theorem doRound_keysOK {α : Type} [LinearOrder α] [Zero α] [DecidableEq α]
    (k : ℕ) : ∀ (gs : List (String × List (Item α))) (div : List (Item α))
      (s : ℕ), KeysOK gs → KeysOK (doRound k gs div s).1 := by
  intro gs
  induction gs with
  | nil =>
    intro div s _ p hp
    exact absurd hp (List.not_mem_nil p)
  | cons q rest ih =>
    obtain ⟨c, items⟩ := q
    intro div s h
    rw [KeysOK_cons] at h
    obtain ⟨hhead, hrest⟩ := h
    cases items with
    | nil =>
      show KeysOK ((c, []) :: (doRound k rest div s).1)
      exact (KeysOK_cons _ _ _).mpr
        ⟨fun x hx => absurd hx (List.not_mem_nil x), ih div s hrest⟩
    | cons x xs =>
      by_cases hs : s = 0
      · subst hs
        rw [doRound_slots_zero]
        exact (KeysOK_cons _ _ _).mpr ⟨hhead, hrest⟩
      · simp only [doRound, if_neg hs]
        refine (KeysOK_cons _ _ _).mpr ⟨?_, ih _ _ hrest⟩
        intro y hy
        by_cases hcnt : k ≤ countCat (div ++ [pyMaxFold x xs]) c
        · rw [if_pos hcnt] at hy
          exact absurd hy (List.not_mem_nil y)
        · rw [if_neg hcnt] at hy
          exact hhead y (List.mem_of_mem_erase hy)

theorem doRound_count_const {α : Type} [LinearOrder α] [Zero α]
    [DecidableEq α] (k : ℕ) (c : String) :
    ∀ (gs : List (String × List (Item α))) (div : List (Item α)) (s : ℕ),
      KeysOK gs → (∀ p ∈ gs, p.1 ≠ c) →
      countCat (doRound k gs div s).2.1 c = countCat div c := by
  intro gs
  induction gs with
  | nil => intro div s _ _; rfl
  | cons q rest ih =>
    obtain ⟨c', items⟩ := q
    intro div s hK hnc
    rw [KeysOK_cons] at hK
    obtain ⟨hhead, hrest⟩ := hK
    have hnc' : ∀ p ∈ rest, p.1 ≠ c :=
      fun p hp => hnc p (List.mem_cons_of_mem _ hp)
    have hcne : c' ≠ c := hnc _ (List.mem_cons_self _ _)
    cases items with
    | nil =>
      show countCat (doRound k rest div s).2.1 c = countCat div c
      exact ih div s hrest hnc'
    | cons x xs =>
      by_cases hs : s = 0
      · subst hs
        rw [doRound_slots_zero]
      · simp only [doRound, if_neg hs]
        have hbk : groupKey (pyMaxFold x xs) = c' :=
          hhead _ (pyMaxFold_mem x xs)
        have hbc : ¬((pyMaxFold x xs).category = some c) :=
          category_ne_of_groupKey_ne _ _ (by rw [hbk]; exact hcne)
        rw [ih _ _ hrest hnc']
        unfold countCat
        simp [List.countP_append, List.countP_cons, hbc]

theorem doRound_good {α : Type} [LinearOrder α] [Zero α] [DecidableEq α]
    (k : ℕ) (c : String) :
    ∀ (gs : List (String × List (Item α))) (div : List (Item α)) (s : ℕ),
      KeysOK gs → UniqKeys gs → GoodAt k c div gs →
      GoodAt k c (doRound k gs div s).2.1 (doRound k gs div s).1 := by
  intro gs
  induction gs with
  | nil =>
    intro div s _ _ hG
    exact ⟨hG.1, fun p hp => absurd hp (List.not_mem_nil p)⟩
  | cons q rest ih =>
    obtain ⟨c', items⟩ := q
    intro div s hK hU hG
    rw [KeysOK_cons] at hK
    obtain ⟨hhead, hrest⟩ := hK
    have hU2 : c' ∉ rest.map Prod.fst ∧ (rest.map Prod.fst).Nodup := by
      have hU' := hU
      simp only [UniqKeys, List.map_cons, List.nodup_cons] at hU'
      exact hU'
    have hUrest : UniqKeys rest := hU2.2
    rw [GoodAt_cons] at hG
    obtain ⟨hle, hheadG, hrestG⟩ := hG
    cases items with
    | nil =>
      show GoodAt k c (doRound k rest div s).2.1
        ((c', []) :: (doRound k rest div s).1)
      have hres := ih div s hrest hUrest ⟨hle, hrestG⟩
      rw [GoodAt_cons]
      exact ⟨hres.1, fun _ h => absurd rfl h, hres.2⟩
    | cons x xs =>
      by_cases hs : s = 0
      · subst hs
        rw [doRound_slots_zero]
        rw [GoodAt_cons]
        exact ⟨hle, hheadG, hrestG⟩
      · simp only [doRound, if_neg hs]
        have hbmem : pyMaxFold x xs ∈ x :: xs := pyMaxFold_mem x xs
        have hbk : groupKey (pyMaxFold x xs) = c' := hhead _ hbmem
        have happ : countCat (div ++ [pyMaxFold x xs]) c =
            countCat div c + countCat [pyMaxFold x xs] c := by
          unfold countCat
          rw [List.countP_append]
        by_cases hc : c' = c
        · subst hc
          have hlt : countCat div c' < k := hheadG rfl (by simp)
          have h1 : countCat [pyMaxFold x xs] c' ≤ 1 := by
            unfold countCat
            by_cases hb : (pyMaxFold x xs).category = some c' <;>
              simp [List.countP_cons, hb]
          have hle2 : countCat (div ++ [pyMaxFold x xs]) c' ≤ k := by
            omega
          have hnoc : ∀ p ∈ rest, p.1 ≠ c' := by
            intro p hp hpc
            exact hU2.1 (hpc ▸ List.mem_map_of_mem Prod.fst hp)
          have hGrest2 : GoodAt k c' (div ++ [pyMaxFold x xs]) rest :=
            ⟨hle2, fun p hp hpc => absurd hpc (hnoc p hp)⟩
          have hres := ih _ (s - 1) hrest hUrest hGrest2
          have hconst := doRound_count_const k c' rest
            (div ++ [pyMaxFold x xs]) (s - 1) hrest hnoc
          rw [GoodAt_cons]
          refine ⟨hres.1, ?_, hres.2⟩
          intro _ hne
          by_cases hcap : k ≤ countCat (div ++ [pyMaxFold x xs]) c'
          · rw [if_pos hcap] at hne
            exact absurd rfl hne
          · rw [hconst]
            omega
        · have hbc : ¬((pyMaxFold x xs).category = some c) :=
            category_ne_of_groupKey_ne _ _ (by rw [hbk]; exact hc)
          have hceq : countCat (div ++ [pyMaxFold x xs]) c =
              countCat div c := by
            rw [happ]
            unfold countCat
            simp [List.countP_cons, hbc]
          have hGrest2 : GoodAt k c (div ++ [pyMaxFold x xs]) rest :=
            ⟨by rw [hceq]; exact hle,
             fun p hp h1 h2 => by rw [hceq]; exact hrestG p hp h1 h2⟩
          have hres := ih _ (s - 1) hrest hUrest hGrest2
          rw [GoodAt_cons]
          exact ⟨hres.1, fun h1 => absurd h1 hc, hres.2⟩

theorem doRound_uniq {α : Type} [LinearOrder α] [Zero α] [DecidableEq α]
    (k : ℕ) (gs : List (String × List (Item α))) (div : List (Item α))
    (s : ℕ) (h : UniqKeys gs) : UniqKeys (doRound k gs div s).1 := by
  unfold UniqKeys at h ⊢
  rw [doRound_keys]
  exact h

theorem diversifyLoop_count {α : Type} [LinearOrder α] [Zero α]
    [DecidableEq α] (k : ℕ) (c : String) (hk : 1 ≤ k) :
    ∀ (fuel : ℕ) (gs : List (String × List (Item α)))
      (div : List (Item α)) (slots : ℕ),
      KeysOK gs → UniqKeys gs → GoodAt k c div gs →
      countCat (diversifyLoop k fuel gs div slots) c ≤ k := by
  intro fuel
  induction fuel with
  | zero =>
    intro gs div slots _ _ hG
    exact hG.1
  | succ n ih =>
    intro gs div slots hK hU hG
    simp only [diversifyLoop]
    by_cases hcond : 0 < slots ∧ anyNonempty gs = true
    · rw [if_pos hcond]
      by_cases hadd : (doRound k gs div slots).2.2.2 = 0
      · rw [if_pos hadd]
        exact (doRound_good k c gs div slots hK hU hG).1
      · rw [if_neg hadd]
        exact ih _ _ _ (doRound_keysOK k gs div slots hK)
          (doRound_uniq k gs div slots hU)
          (doRound_good k c gs div slots hK hU hG)
    · rw [if_neg hcond]
      exact hG.1

theorem addToGroups_keysOK {α : Type} (x : Item α)
    (gs : List (String × List (Item α))) (h : KeysOK gs) :
    KeysOK (addToGroups x gs) := by
  induction gs with
  | nil =>
    intro p hp y hy
    simp only [addToGroups, List.mem_singleton] at hp
    subst hp
    simp only [List.mem_singleton] at hy
    subst hy
    rfl
  | cons q rest ih =>
    obtain ⟨c, l⟩ := q
    obtain ⟨hhead, hrest⟩ := (KeysOK_cons c l rest).mp h
    by_cases hc : c = groupKey x
    · simp only [addToGroups, if_pos hc]
      rw [KeysOK_cons]
      refine ⟨?_, hrest⟩
      intro y hy
      rcases List.mem_append.mp hy with hy | hy
      · exact hhead y hy
      · simp only [List.mem_singleton] at hy
        subst hy
        exact hc.symm
    · simp only [addToGroups, if_neg hc]
      rw [KeysOK_cons]
      exact ⟨hhead, ih hrest⟩

theorem addToGroups_keys {α : Type} (x : Item α)
    (gs : List (String × List (Item α))) :
    (addToGroups x gs).map Prod.fst =
      if groupKey x ∈ gs.map Prod.fst then gs.map Prod.fst
      else gs.map Prod.fst ++ [groupKey x] := by
  induction gs with
  | nil => simp [addToGroups]
  | cons q rest ih =>
    obtain ⟨c, l⟩ := q
    by_cases hc : c = groupKey x
    · simp [addToGroups, hc]
    · simp only [addToGroups, if_neg hc, List.map_cons, ih]
      by_cases hm : groupKey x ∈ rest.map Prod.fst
      · simp [hm, Ne.symm hc]
      · simp [hm, Ne.symm hc]

theorem addToGroups_uniq {α : Type} (x : Item α)
    (gs : List (String × List (Item α))) (h : UniqKeys gs) :
    UniqKeys (addToGroups x gs) := by
  unfold UniqKeys at h ⊢
  rw [addToGroups_keys]
  by_cases hm : groupKey x ∈ gs.map Prod.fst
  · rw [if_pos hm]
    exact h
  · rw [if_neg hm]
    rw [List.nodup_append]
    refine ⟨h, List.nodup_singleton _, ?_⟩
    intro b hb hb2
    simp only [List.mem_singleton] at hb2
    subst hb2
    exact hm hb

theorem groupsOf_aux {α : Type} :
    ∀ (l : List (Item α)) (gs : List (String × List (Item α))),
      KeysOK gs → UniqKeys gs →
      KeysOK (l.foldl (fun gs x => addToGroups x gs) gs) ∧
      UniqKeys (l.foldl (fun gs x => addToGroups x gs) gs) := by
  intro l
  induction l with
  | nil => intro gs hK hU; exact ⟨hK, hU⟩
  | cons x xs ih =>
    intro gs hK hU
    exact ih _ (addToGroups_keysOK x gs hK) (addToGroups_uniq x gs hU)

theorem groupsOf_ok {α : Type} (cands : List (Item α)) :
    KeysOK (groupsOf cands) ∧ UniqKeys (groupsOf cands) :=
  groupsOf_aux cands []
    (fun p hp => absurd hp (List.not_mem_nil p)) List.nodup_nil

/-- Claim C1 (amended): for every positive cap `k`, `diversify_results`
returns at most `k` items whose explicit `"category"` key equals any
given value — but items without a category are exempt: the per-bucket
cut-off compares `item.get("category")` (which is `None` for them)
against the bucket name `"uncategorized"`, so the uncategorized bucket is
never cleared (see the counterexample). -/
theorem C1_diversify_category_cap {α : Type} [LinearOrder α] [Zero α]
    [DecidableEq α] (df : ℚ) (cands : List (Item α)) (k : ℕ)
    (hk : 1 ≤ k) (c : String) :
    countCat (diversify df cands k) c ≤ k := by
  unfold diversify
  by_cases hn : cands = []
  · rw [if_pos hn]
    subst hn
    exact Nat.zero_le k
  · rw [if_neg hn]
    rw [countCat_sortScoreDesc]
    have hgs := groupsOf_ok cands
    exact diversifyLoop_count k c hk cands.length (groupsOf cands) []
      cands.length hgs.1 hgs.2 ⟨Nat.zero_le k, fun p hp h1 h2 => hk⟩

/-- Claim C1, counterexample to the claim as stated: four candidates
without a category all land in the `"uncategorized"` bucket, yet with
`max_per_category = 3` the diversifier returns all four of them — the
bucket count compares `item.get("category")` (`None`) with
`"uncategorized"` and never reaches the cap. -/
theorem C1_counterexample :
    (∀ x ∈ ([⟨"1", none, none, none, some 4, none⟩,
        ⟨"2", none, none, none, some 3, none⟩,
        ⟨"3", none, none, none, some 2, none⟩,
        ⟨"4", none, none, none, some 1, none⟩] : List (Item ℤ)),
      x.category = none) ∧
    countBucket (diversify (3/10)
        ([⟨"1", none, none, none, some 4, none⟩,
          ⟨"2", none, none, none, some 3, none⟩,
          ⟨"3", none, none, none, some 2, none⟩,
          ⟨"4", none, none, none, some 1, none⟩] : List (Item ℤ)) 3)
      "uncategorized" = 4 ∧ 3 < 4 := by
  refine ⟨by decide, ?_, by decide⟩
  decide

/-- Witness instantiating `C1_diversify_category_cap` on a small
categorized list. -/
theorem C1_witness :
    1 ≤ 3 ∧
    countCat (diversify (0 : ℚ)
      ([⟨"x", some "a", none, none, some 1, none⟩] : List (Item ℤ)) 3)
      "a" ≤ 3 :=
  ⟨by decide,
   C1_diversify_category_cap 0
     ([⟨"x", some "a", none, none, some 1, none⟩] : List (Item ℤ)) 3
     (by decide) "a"⟩

/-- Witness instantiating `C5_cold_start_fallback` on an empty cache and
an interaction-free user. -/
theorem C5_witness :
    get_personalized_recommendations trivEngine "u" 10 true (1/10)
        (fun _ => none) =
      get_trending_books trivEngine 10 30 5 (fun _ => none) ∧
    (get_personalized_recommendations trivEngine "u" 10 true (1/10)
        (fun _ => none)).2 (persKey "u" 10 true) = none :=
  C5_cold_start_fallback trivEngine "u" 10 true (1/10) (fun _ => none)
    rfl rfl
